import Mathlib

set_option maxRecDepth 100000

/-
  Verification development for the mycoin proof-of-work node.

  Shallow embedding of the Go sources under a functional model:
  * machine integers are modelled as Nat / Int with explicit reductions
    modulo 2^32 / 2^64 where the Go code relies on fixed-width behaviour;
  * Go byte slices are `List Nat` (each element intended < 256);
  * Go maps are association lists with in-place overwrite (`mapPut`),
    which refines Go's unordered maps by fixing an iteration order;
  * fallible or panicking Go code returns `Option` (`none` = runtime panic);
  * SHA-256 is implemented executably; secp256k1/ECDSA and the
    hash-based address derivation are abstracted as a `CryptoEnv`
    parameter, since no verified property depends on their values.

  Each definition carries a comment naming the Go source it embeds.
-/

/-! ## Association-list maps (model of Go maps) -/

/-- Lookup in an association list (Go `m[k]`). -/
def mapGet {κ α : Type} [DecidableEq κ] (m : List (κ × α)) (k : κ) :
    Option α :=
  match m.find? (fun p => p.1 = k) with
  | some p => some p.2
  | none => none

/-- Insert or overwrite (Go `m[k] = v`): replaces an existing binding in
place, else appends. -/
def mapPut {κ α : Type} [DecidableEq κ] (m : List (κ × α)) (k : κ) (v : α) :
    List (κ × α) :=
  match m with
  | [] => [(k, v)]
  | p :: rest => if p.1 = k then (k, v) :: rest else p :: mapPut rest k v

/-- Deletion (Go `delete(m, k)`); removes every binding of the key, which
on states with unique keys (as Go maps guarantee) coincides with removing
the one binding. -/
def mapDel {κ α : Type} [DecidableEq κ] (m : List (κ × α)) (k : κ) :
    List (κ × α) :=
  m.filter fun p => decide (p.1 ≠ k)

/-- Lookup after overwrite at the written key. -/
theorem mapGet_mapPut_self {κ α : Type} [DecidableEq κ]
    (m : List (κ × α)) (k : κ) (v : α) : mapGet (mapPut m k v) k = some v := by
  induction m with
  | nil => simp [mapGet, mapPut]
  | cons p rest ih =>
    by_cases h : p.1 = k
    · simp [mapGet, mapPut, h]
    · simp only [mapPut, if_neg h]
      simpa [mapGet, List.find?, h] using ih

/-- Lookup after overwrite at a different key. -/
theorem mapGet_mapPut_ne {κ α : Type} [DecidableEq κ]
    (m : List (κ × α)) (k x : κ) (v : α) (hx : x ≠ k) :
    mapGet (mapPut m k v) x = mapGet m x := by
  induction m with
  | nil => simp [mapGet, mapPut, List.find?, Ne.symm hx]
  | cons p rest ih =>
    by_cases h : p.1 = k
    · subst h
      simp [mapGet, mapPut, List.find?, Ne.symm hx]
    · simp only [mapPut, if_neg h]
      by_cases h2 : p.1 = x
      · simp [mapGet, List.find?, h2]
      · simpa [mapGet, List.find?, h2] using ih

/-- Lookup after deletion at the deleted key. -/
theorem mapGet_mapDel_self {κ α : Type} [DecidableEq κ]
    (m : List (κ × α)) (k : κ) : mapGet (mapDel m k) k = none := by
  induction m with
  | nil => simp [mapGet, mapDel]
  | cons p rest ih =>
    by_cases h : p.1 = k
    · simpa [mapDel, h] using ih
    · simp only [mapDel, List.filter] at ih ⊢
      simp only [decide_not, h, decide_False, Bool.not_false]
      simpa [mapGet, List.find?, h] using ih

/-- Lookup after deletion at a different key. -/
theorem mapGet_mapDel_ne {κ α : Type} [DecidableEq κ]
    (m : List (κ × α)) (k x : κ) (hx : x ≠ k) :
    mapGet (mapDel m k) x = mapGet m x := by
  induction m with
  | nil => simp [mapGet, mapDel]
  | cons p rest ih =>
    by_cases h : p.1 = k
    · subst h
      simp only [mapDel, List.filter] at ih ⊢
      simp only [decide_not, decide_True, Bool.not_true]
      have h2 : p.1 ≠ x := fun hh => hx hh.symm
      simpa [mapGet, List.find?, h2] using ih
    · simp only [mapDel, List.filter] at ih ⊢
      simp only [decide_not, h, decide_False, Bool.not_false]
      by_cases h2 : p.1 = x
      · simp [mapGet, List.find?, h2]
      · simpa [mapGet, List.find?, h2] using ih

/-! ## Bytes, strings, hex -/

/-- UTF-8 encoding of one character, as Go `[]byte(string)` produces. -/
def utf8EncodeChar (c : Char) : List Nat :=
  let n := c.toNat
  if n < 0x80 then [n]
  else if n < 0x800 then
    [0xc0 ||| (n >>> 6), 0x80 ||| (n &&& 0x3f)]
  else if n < 0x10000 then
    [0xe0 ||| (n >>> 12), 0x80 ||| ((n >>> 6) &&& 0x3f), 0x80 ||| (n &&& 0x3f)]
  else
    [0xf0 ||| (n >>> 18), 0x80 ||| ((n >>> 12) &&& 0x3f),
     0x80 ||| ((n >>> 6) &&& 0x3f), 0x80 ||| (n &&& 0x3f)]

/-- Go `[]byte(s)`: the UTF-8 bytes of a string. -/
def goBytes (s : String) : List Nat :=
  (s.data.map utf8EncodeChar).flatten

/-- Lowercase hex digit of a value < 16. -/
def hexDigit (n : Nat) : Char :=
  if n < 10 then Char.ofNat (48 + n) else Char.ofNat (87 + n)

/-- Go `hex.EncodeToString`: two lowercase hex digits per byte. -/
def hexEncode (bs : List Nat) : String :=
  String.mk ((bs.map (fun b => [hexDigit ((b / 16) % 16), hexDigit (b % 16)])).flatten)

/-- Value of a single hex digit character, accepting both cases. -/
def hexDigitVal (c : Char) : Option Nat :=
  let n := c.toNat
  if 48 ≤ n ∧ n ≤ 57 then some (n - 48)
  else if 97 ≤ n ∧ n ≤ 102 then some (n - 87)
  else if 65 ≤ n ∧ n ≤ 70 then some (n - 55)
  else none

/-- Strict hex decoding (Go `hex.DecodeString` when the error is checked):
fails on an odd length or a non-hex character. -/
def hexDecodeChars : List Char → Option (List Nat)
  | [] => some []
  | [_] => none
  | c1 :: c2 :: rest =>
    match hexDigitVal c1, hexDigitVal c2, hexDecodeChars rest with
    | some h, some l, some bs => some ((16 * h + l) :: bs)
    | _, _, _ => none

/-- Strict hex decoding of a string. -/
def hexDecode (s : String) : Option (List Nat) :=
  hexDecodeChars s.data

/-- Partial hex decoding: Go `hex.DecodeString` returns the bytes decoded
before the first error, and `ComputeMerkleRoot` ignores the error and keeps
that prefix. -/
def hexDecodePartialChars : List Char → List Nat
  | [] => []
  | [_] => []
  | c1 :: c2 :: rest =>
    match hexDigitVal c1, hexDigitVal c2 with
    | some h, some l => (16 * h + l) :: hexDecodePartialChars rest
    | _, _ => []

/-- Partial hex decoding of a string. -/
def hexDecodePartial (s : String) : List Nat :=
  hexDecodePartialChars s.data

/-- Go `binary.LittleEndian.PutUint64`: 8 little-endian bytes of n mod 2^64. -/
def u64le (n : Nat) : List Nat :=
  [n % 256, (n >>> 8) % 256, (n >>> 16) % 256, (n >>> 24) % 256,
   (n >>> 32) % 256, (n >>> 40) % 256, (n >>> 48) % 256, (n >>> 56) % 256]

/-- Go `binary.LittleEndian.PutUint32`: 4 little-endian bytes of n mod 2^32. -/
def u32le (n : Nat) : List Nat :=
  [n % 256, (n >>> 8) % 256, (n >>> 16) % 256, (n >>> 24) % 256]

/-- Go `binary.BigEndian.PutUint64`: 8 big-endian bytes of n mod 2^64. -/
def u64be (n : Nat) : List Nat :=
  [(n >>> 56) % 256, (n >>> 48) % 256, (n >>> 40) % 256, (n >>> 32) % 256,
   (n >>> 24) % 256, (n >>> 16) % 256, (n >>> 8) % 256, n % 256]

/-- Go `uint64(x)` for an `int` value: two's-complement reduction mod 2^64. -/
def intToUint64 (i : Int) : Nat :=
  (i % (18446744073709551616 : Int)).toNat

/-- Go `new(big.Int).SetBytes`: big-endian unsigned interpretation. -/
def natFromBytesBE (bs : List Nat) : Nat :=
  bs.foldl (fun acc b => acc * 256 + b) 0

/-! ## SHA-256 (crypto/sha256), executable -/

/-- The 64 SHA-256 round constants. -/
def sha256K : List Nat :=
  [1116352408, 1899447441, 3049323471, 3921009573,
   961987163, 1508970993, 2453635748, 2870763221,
   3624381080, 310598401, 607225278, 1426881987,
   1925078388, 2162078206, 2614888103, 3248222580,
   3835390401, 4022224774, 264347078, 604807628,
   770255983, 1249150122, 1555081692, 1996064986,
   2554220882, 2821834349, 2952996808, 3210313671,
   3336571891, 3584528711, 113926993, 338241895,
   666307205, 773529912, 1294757372, 1396182291,
   1695183700, 1986661051, 2177026350, 2456956037,
   2730485921, 2820302411, 3259730800, 3345764771,
   3516065817, 3600352804, 4094571909, 275423344,
   430227734, 506948616, 659060556, 883997877,
   958139571, 1322822218, 1537002063, 1747873779,
   1955562222, 2024104815, 2227730452, 2361852424,
   2428436474, 2756734187, 3204031479, 3329325298]

/-- The SHA-256 initial state. -/
def sha256H0 : List Nat :=
  [1779033703, 3144134277, 1013904242, 2773480762,
   1359893119, 2600822924, 528734635, 1541459225]

/-- 32-bit right rotation (operand assumed < 2^32). -/
def rotr32 (x n : Nat) : Nat :=
  ((x >>> n) ||| (x <<< (32 - n))) &&& 0xffffffff

/-- 32-bit bitwise complement. -/
def not32 (x : Nat) : Nat := 0xffffffff ^^^ x

/-- SHA-256 padding: 0x80, zeros to 56 mod 64, 8-byte big-endian bit length. -/
def sha256Pad (msg : List Nat) : List Nat :=
  let l := msg.length
  let zeros := (119 - l % 64) % 64
  msg ++ [0x80] ++ List.replicate zeros 0 ++ u64be (l * 8)

/-- Big-endian 32-bit words from bytes (length assumed a multiple of 4). -/
def bytesToWordsBE : List Nat → List Nat
  | b0 :: b1 :: b2 :: b3 :: rest =>
    (((b0 * 256 + b1) * 256 + b2) * 256 + b3) :: bytesToWordsBE rest
  | _ => []

/-- Big-endian bytes of one 32-bit word. -/
def wordToBytesBE (w : Nat) : List Nat :=
  [(w >>> 24) % 256, (w >>> 16) % 256, (w >>> 8) % 256, w % 256]

/-- Message-schedule extension step: appends W[i] for i = 16 … 63. -/
def sha256Extend (w : List Nat) : Nat → List Nat
  | 0 => w
  | k + 1 =>
    let i := w.length
    let w15 := w.getD (i - 15) 0
    let w2 := w.getD (i - 2) 0
    let s0 := (rotr32 w15 7) ^^^ (rotr32 w15 18) ^^^ (w15 >>> 3)
    let s1 := (rotr32 w2 17) ^^^ (rotr32 w2 19) ^^^ (w2 >>> 10)
    let next := (w.getD (i - 16) 0 + s0 + w.getD (i - 7) 0 + s1) % 4294967296
    sha256Extend (w ++ [next]) k

/-- One SHA-256 compression round. -/
def sha256Round (w : List Nat) (i : Nat) (st : List Nat) : List Nat :=
  match st with
  | [a, b, c, d, e, f, g, h] =>
    let s1 := (rotr32 e 6) ^^^ (rotr32 e 11) ^^^ (rotr32 e 25)
    let ch := (e &&& f) ^^^ ((not32 e) &&& g)
    let t1 := (h + s1 + ch + sha256K.getD i 0 + w.getD i 0) % 4294967296
    let s0 := (rotr32 a 2) ^^^ (rotr32 a 13) ^^^ (rotr32 a 22)
    let maj := (a &&& b) ^^^ (a &&& c) ^^^ (b &&& c)
    let t2 := (s0 + maj) % 4294967296
    [(t1 + t2) % 4294967296, a, b, c, (d + t1) % 4294967296, e, f, g]
  | _ => st

/-- Run rounds i, i+1, … for the given fuel. -/
def sha256Rounds (w : List Nat) : Nat → Nat → List Nat → List Nat
  | _, 0, st => st
  | i, k + 1, st => sha256Rounds w (i + 1) k (sha256Round w i st)

/-- Compress one 64-byte block into the running state. -/
def sha256Block (st : List Nat) (block : List Nat) : List Nat :=
  let w := sha256Extend (bytesToWordsBE block) 48
  let st' := sha256Rounds w 0 64 st
  (st.zip st').map (fun p => (p.1 + p.2) % 4294967296)

/-- Split padded input into 64-byte blocks and fold the compression
(structural recursion on a fuel bound, so proofs can unfold it). -/
def sha256Blocks : Nat → List Nat → List Nat → List Nat
  | 0, st, _ => st
  | fuel + 1, st, msg =>
    if msg.length < 64 then st
    else sha256Blocks fuel (sha256Block st (msg.take 64)) (msg.drop 64)

/-- Go `sha256.Sum256`: the 32-byte SHA-256 digest of a byte slice. -/
def sha256 (msg : List Nat) : List Nat :=
  let padded := sha256Pad msg
  ((sha256Blocks padded.length sha256H0 padded).map wordToBytesBE).flatten

/-- Sanity check of the SHA-256 embedding against the standard test vector
for the string "abc". -/
theorem sha256_abc :
    hexEncode (sha256 (goBytes ("abc"))) =
      "ba7816bf8f01cfea414140de5dae2223b00361a396177a9cb410ff61f20015ad" := by
  rfl

/-! ## Compact difficulty encoding (mycoin/utils/format.go) -/

/-- Length of Go `big.Int.Bytes()` (minimal big-endian) for a non-negative
value. -/
def byteLen (n : Nat) : Nat := if n = 0 then 0 else n.log2 / 8 + 1

/-- utils.BigToCompact (format.go lines 14-40).  The first component of each
pair is the 3-byte mantissa, the second the exponent.  For `lenBytes > 3`,
`uint32(bytes[0])<<16 | uint32(bytes[1])<<8 | uint32(bytes[2])` equals the
value shifted right by `8*(lenBytes-3)`.  The final packing keeps the Go
`uint32` truncations explicit. -/
def BigToCompact (n : Int) : Nat :=
  if n ≤ 0 then 0
  else
    let v := n.toNat
    let lenBytes := byteLen v
    let me : Nat × Nat :=
      if lenBytes ≤ 3 then (v <<< (8 * (3 - lenBytes)), 3)
      else (v >>> (8 * (lenBytes - 3)), lenBytes)
    let me2 : Nat × Nat :=
      if me.1 &&& 0x00800000 ≠ 0 then (me.1 >>> 8, me.2 + 1) else me
    (((me2.2 % 4294967296) <<< 24) % 4294967296) ||| me2.1

/-- utils.CompactToBig (format.go lines 41-61). -/
def CompactToBig (bits : Nat) : Int :=
  let exponent := bits >>> 24
  let mantissa := bits &&& 0x007fffff
  let result : Int :=
    if exponent ≤ 3 then ((mantissa >>> (8 * (3 - exponent)) : Nat) : Int)
    else ((mantissa <<< (8 * (exponent - 3)) : Nat) : Int)
  if bits &&& 0x00800000 ≠ 0 then -result else result

/-- 256^k as a power of two. -/
theorem pow256_eq (k : Nat) : (256 : Nat) ^ k = 2 ^ (8 * k) := by
  rw [show (256 : Nat) = 2 ^ 8 by norm_num, ← pow_mul]

/-- Right shift by 8k is division by 256^k. -/
theorem shiftRight_pow256 (t k : Nat) : t >>> (8 * k) = t / 256 ^ k := by
  rw [Nat.shiftRight_eq_div_pow, pow256_eq]

/-- Left shift by 8k is multiplication by 256^k. -/
theorem shiftLeft_pow256 (m k : Nat) : m <<< (8 * k) = m * 256 ^ k := by
  rw [Nat.shiftLeft_eq, pow256_eq]

/-- Lower bound from the byte length. -/
theorem byteLen_lower {n : Nat} (h : 0 < n) : 256 ^ (byteLen n - 1) ≤ n := by
  unfold byteLen
  rw [if_neg (Nat.pos_iff_ne_zero.mp h)]
  simp only [Nat.add_sub_cancel]
  calc 256 ^ (n.log2 / 8) = 2 ^ (8 * (n.log2 / 8)) := pow256_eq _
    _ ≤ 2 ^ n.log2 := Nat.pow_le_pow_right (by norm_num)
        (by have := Nat.div_mul_le_self n.log2 8; omega)
    _ ≤ n := Nat.log2_self_le (Nat.pos_iff_ne_zero.mp h)

/-- Upper bound from the byte length. -/
theorem byteLen_upper (n : Nat) : n < 256 ^ byteLen n := by
  by_cases h : n = 0
  · subst h; simp [byteLen]
  · unfold byteLen
    rw [if_neg h]
    calc n < 2 ^ (n.log2 + 1) := Nat.lt_log2_self
      _ ≤ 2 ^ (8 * (n.log2 / 8 + 1)) := Nat.pow_le_pow_right (by norm_num)
          (by have h8 := Nat.div_add_mod n.log2 8
              have hm8 : n.log2 % 8 < 8 := Nat.mod_lt _ (by norm_num)
              omega)
      _ = 256 ^ (n.log2 / 8 + 1) := (pow256_eq _).symm

/-- Packing of exponent and mantissa into the compact word: with a small
exponent and a 3-byte mantissa, the Go `uint32` expression
`(uint32(exp) << 24) | mantissa` equals `2^24 * exp + mantissa`. -/
theorem packBits {e m : Nat} (he : e ≤ 255) (hm : m < 16777216) :
    (((e % 4294967296) <<< 24) % 4294967296) ||| m = 16777216 * e + m := by
  have h1 : e % 4294967296 = e := Nat.mod_eq_of_lt (by omega)
  have h2 : e <<< 24 = e * 16777216 := by
    simp [Nat.shiftLeft_eq]
  have h3 : e * 16777216 % 4294967296 = e * 16777216 :=
    Nat.mod_eq_of_lt (by nlinarith)
  rw [h1, h2, h3, Nat.mul_comm e 16777216]
  exact (Nat.mul_add_lt_is_or (i := 24) (by norm_num [hm]) e).symm

/-- Reading the exponent back from the packed word. -/
theorem unpackExponent {e m : Nat} (hm : m < 16777216) :
    (16777216 * e + m) >>> 24 = e := by
  rw [Nat.shiftRight_eq_div_pow, show (2:Nat) ^ 24 = 16777216 by norm_num,
    Nat.mul_add_div (by norm_num), Nat.div_eq_of_lt hm]
  omega

/-- Reading the mantissa back from the packed word (sign bit clear). -/
theorem unpackMantissa {e m : Nat} (hm : m < 8388608) :
    (16777216 * e + m) &&& 8388607 = m := by
  have h := Nat.and_pow_two_sub_one_eq_mod (16777216 * e + m) 23
  rw [show (2:Nat) ^ 23 = 8388608 by norm_num] at h
  rw [show (8388607 : Nat) = 8388608 - 1 by norm_num, h,
    show 16777216 * e = 8388608 * (2 * e) by ring, Nat.mul_add_mod,
    Nat.mod_eq_of_lt hm]

/-- Division of the packed word by 2^23 is even when the mantissa is below
2^23. -/
theorem packDiv23 {e m : Nat} (hm : m < 8388608) :
    (16777216 * e + m) / 8388608 = 2 * e := by
  rw [show 16777216 * e = 8388608 * (2 * e) by ring,
    Nat.mul_add_div (by norm_num), Nat.div_eq_of_lt hm]
  omega

/-- The sign bit of the packed word is clear when the mantissa is below
2^23. -/
theorem unpackSign {e m : Nat} (hm : m < 8388608) :
    (16777216 * e + m) &&& 8388608 = 0 := by
  have h := Nat.and_two_pow (16777216 * e + m) 23
  rw [show (2:Nat) ^ 23 = 8388608 by norm_num] at h
  rw [h]
  have ht : (16777216 * e + m).testBit 23 = false := by
    rw [Nat.testBit_to_div_mod, show (2:Nat) ^ 23 = 8388608 by norm_num,
      packDiv23 hm]
    simp [Nat.mul_mod_right]
  rw [ht]
  rfl

/-- Bit 23 of a value below 2^24 is set exactly when the value is at least
2^23 (the mantissa "sign" test of the compact format). -/
theorem and_bit23 {m : Nat} (h : m < 16777216) :
    (m &&& 8388608 ≠ 0) ↔ 8388608 ≤ m := by
  have ha := Nat.and_two_pow m 23
  rw [show (2:Nat) ^ 23 = 8388608 by norm_num] at ha
  rw [ha, Nat.testBit_to_div_mod, show (2:Nat) ^ 23 = 8388608 by norm_num]
  by_cases hc : 8388608 ≤ m
  · have h2 : m / 8388608 < 2 := Nat.div_lt_of_lt_mul (by omega)
    have h1 : 1 ≤ m / 8388608 := (Nat.le_div_iff_mul_le (by norm_num)).mpr (by omega)
    have he : m / 8388608 = 1 := by omega
    simp [he, hc]
  · have h0 : m / 8388608 = 0 := Nat.div_eq_of_lt (by omega)
    simp [h0, hc]
/-- The power of 256 that the compact encoder discards for a target: one
byte more when the leading byte is at least 0x80 (the encoder then shifts
the mantissa right once more to keep the sign bit clear). -/
def compactDivisor (t : Nat) : Nat :=
  if 128 ≤ t / 256 ^ (byteLen t - 1) then 256 ^ (byteLen t - 2)
  else 256 ^ (byteLen t - 3)

/-- Decoding a packed compact word with exponent in 3..255 and mantissa
below 2^23. -/
theorem CompactToBig_pack {e m : Nat} (he3 : 3 ≤ e) (he : e ≤ 255)
    (hm : m < 8388608) :
    CompactToBig (16777216 * e + m) = ((m * 256 ^ (e - 3) : Nat) : Int) := by
  unfold CompactToBig
  rw [unpackExponent (by omega), unpackMantissa hm, unpackSign hm]
  simp only [ne_eq, not_true_eq_false, ite_false, if_false, if_neg (show ¬ (0 : Nat) ≠ 0 by omega)]
  by_cases hc : e ≤ 3
  · have he3' : e = 3 := by omega
    subst he3'
    simp [shiftRight_pow256]
  · rw [if_neg hc, shiftLeft_pow256]

/-- Evaluation of the compact encoder on a target of at least three bytes. -/
theorem BigToCompact_eval {t : Nat} (ht : 65536 ≤ t) (h256 : t < 2 ^ 256) :
    BigToCompact (t : Int) =
      if t / 256 ^ (byteLen t - 3) < 8388608 then
        16777216 * byteLen t + t / 256 ^ (byteLen t - 3)
      else 16777216 * (byteLen t + 1) + t / 256 ^ (byteLen t - 2) := by
  have ht0 : 0 < t := by omega
  have hlow : 256 ^ (byteLen t - 1) ≤ t := byteLen_lower ht0
  have hhigh : t < 256 ^ byteLen t := byteLen_upper t
  have hL3 : 3 ≤ byteLen t := by
    by_contra hzz
    push_neg at hzz
    have h1 : (256:Nat) ^ byteLen t ≤ 256 ^ 2 :=
      Nat.pow_le_pow_right (by norm_num) (by omega)
    have h2 : (256:Nat) ^ 2 = 65536 := by norm_num
    omega
  have hL32 : byteLen t ≤ 32 := by
    by_contra hzz
    push_neg at hzz
    have h1 : (256:Nat) ^ 32 ≤ 256 ^ (byteLen t - 1) :=
      Nat.pow_le_pow_right (by norm_num) (by omega)
    have h2 : (256:Nat) ^ 32 = 2 ^ 256 := by
      rw [pow256_eq]
    omega
  have hm0low : 65536 ≤ t / 256 ^ (byteLen t - 3) := by
    rw [Nat.le_div_iff_mul_le (pow_pos (by norm_num) _)]
    calc (65536 : Nat) * 256 ^ (byteLen t - 3) = 256 ^ 2 * 256 ^ (byteLen t - 3) := by
          norm_num
      _ = 256 ^ (byteLen t - 1) := by
          rw [← pow_add]
          congr 1
          omega
      _ ≤ t := hlow
  have hm0high : t / 256 ^ (byteLen t - 3) < 16777216 := by
    rw [Nat.div_lt_iff_lt_mul (pow_pos (by norm_num) _)]
    calc t < 256 ^ byteLen t := hhigh
      _ = 16777216 * 256 ^ (byteLen t - 3) := by
          rw [show (16777216 : Nat) = 256 ^ 3 by norm_num, ← pow_add]
          congr 1
          omega
  have hneg : ¬ ((t : Int) ≤ 0) := by
    have : (0:Int) < (t : Int) := by exact_mod_cast ht0
    omega
  unfold BigToCompact
  rw [if_neg hneg]
  simp only [Int.toNat_natCast]
  by_cases hc : byteLen t ≤ 3
  · have hL : byteLen t = 3 := by omega
    rw [hL] at hm0low hm0high ⊢
    simp only [le_refl, if_pos]
    have hsh : t <<< (8 * (3 - 3)) = t := by
      norm_num
    have hdv : t / 256 ^ (3 - 3) = t := by
      norm_num
    rw [hsh]
    rw [hdv] at hm0low hm0high ⊢
    by_cases hs : 8388608 ≤ t
    · have hbit : t &&& 8388608 ≠ 0 := (and_bit23 hm0high).mpr hs
      rw [if_pos hbit, if_neg (by omega)]
      have hsr : t >>> 8 = t / 256 ^ (3 - 2) := by
        rw [Nat.shiftRight_eq_div_pow]
        norm_num
      rw [hsr]
      apply packBits (by omega)
      have h1 : t / 256 ^ (3 - 2) < 65536 := by
        rw [Nat.div_lt_iff_lt_mul (pow_pos (by norm_num) _)]
        norm_num
        omega
      omega
    · have hbit : ¬ (t &&& 8388608 ≠ 0) := by
        rw [and_bit23 hm0high]
        omega
      rw [if_neg hbit, if_pos (by omega)]
      exact packBits (by omega) (by omega)
  · rw [if_neg hc]
    rw [shiftRight_pow256]
    by_cases hs : 8388608 ≤ t / 256 ^ (byteLen t - 3)
    · have hbit : t / 256 ^ (byteLen t - 3) &&& 8388608 ≠ 0 :=
        (and_bit23 hm0high).mpr hs
      rw [if_pos hbit, if_neg (by omega)]
      have hsr : (t / 256 ^ (byteLen t - 3)) >>> 8 = t / 256 ^ (byteLen t - 2) := by
        rw [Nat.shiftRight_eq_div_pow, Nat.div_div_eq_div_mul]
        congr 1
        rw [show (2:Nat) ^ 8 = 256 ^ 1 by norm_num, ← pow_add]
        congr 1
        omega
      rw [hsr]
      apply packBits (by omega)
      have h1 : t / 256 ^ (byteLen t - 2) < 65536 := by
        rw [Nat.div_lt_iff_lt_mul (pow_pos (by norm_num) _)]
        calc t < 256 ^ byteLen t := hhigh
          _ ≤ 65536 * 256 ^ (byteLen t - 2) := by
              rw [show (65536 : Nat) = 256 ^ 2 by norm_num, ← pow_add]
              apply Nat.pow_le_pow_right (by norm_num)
              omega
      omega
    · have hbit : ¬ (t / 256 ^ (byteLen t - 3) &&& 8388608 ≠ 0) := by
        rw [and_bit23 hm0high]
        omega
      rw [if_neg hbit, if_pos (by omega)]
      exact packBits (by omega) (by omega)
/-- A target of at least three bytes has byte length at least 3. -/
theorem byteLen_ge_three {t : Nat} (ht : 65536 ≤ t) : 3 ≤ byteLen t := by
  have hhigh : t < 256 ^ byteLen t := byteLen_upper t
  by_contra hzz
  push_neg at hzz
  have h1 : (256:Nat) ^ byteLen t ≤ 256 ^ 2 :=
    Nat.pow_le_pow_right (by norm_num) (by omega)
  have h2 : (256:Nat) ^ 2 = 65536 := by norm_num
  omega

/-- A 256-bit target has byte length at most 32. -/
theorem byteLen_le_32 {t : Nat} (ht : 0 < t) (h256 : t < 2 ^ 256) :
    byteLen t ≤ 32 := by
  have hlow : 256 ^ (byteLen t - 1) ≤ t := byteLen_lower ht
  by_contra hzz
  push_neg at hzz
  have h1 : (256:Nat) ^ 32 ≤ 256 ^ (byteLen t - 1) :=
    Nat.pow_le_pow_right (by norm_num) (by omega)
  have h2 : (256:Nat) ^ 32 = 2 ^ 256 := by rw [pow256_eq]
  omega

/-- The three leading bytes of a target of at least three bytes form a value
in [2^16, 2^24). -/
theorem mantissa_bounds {t : Nat} (ht : 65536 ≤ t) :
    65536 ≤ t / 256 ^ (byteLen t - 3) ∧ t / 256 ^ (byteLen t - 3) < 16777216 := by
  have ht0 : 0 < t := by omega
  have hL3 : 3 ≤ byteLen t := byteLen_ge_three ht
  have hlow : 256 ^ (byteLen t - 1) ≤ t := byteLen_lower ht0
  have hhigh : t < 256 ^ byteLen t := byteLen_upper t
  constructor
  · rw [Nat.le_div_iff_mul_le (pow_pos (by norm_num) _)]
    calc (65536 : Nat) * 256 ^ (byteLen t - 3) = 256 ^ 2 * 256 ^ (byteLen t - 3) := by
          norm_num
      _ = 256 ^ (byteLen t - 1) := by
          rw [← pow_add]
          congr 1
          omega
      _ ≤ t := hlow
  · rw [Nat.div_lt_iff_lt_mul (pow_pos (by norm_num) _)]
    calc t < 256 ^ byteLen t := hhigh
      _ = 16777216 * 256 ^ (byteLen t - 3) := by
          rw [show (16777216 : Nat) = 256 ^ 3 by norm_num, ← pow_add]
          congr 1
          omega

/-- The leading byte of a target, expressed through the three leading
bytes. -/
theorem topByte_div {t : Nat} (ht : 65536 ≤ t) :
    t / 256 ^ (byteLen t - 1) = t / 256 ^ (byteLen t - 3) / 65536 := by
  have hL3 : 3 ≤ byteLen t := byteLen_ge_three ht
  rw [Nat.div_div_eq_div_mul, show (65536:Nat) = 256 ^ 2 by norm_num, ← pow_add]
  congr 2
  omega
/-- Byte length of 18 (needed because Nat.log2 is not kernel-reducible). -/
theorem byteLen_eighteen : byteLen 18 = 1 := by
  norm_num [byteLen, Nat.log2]

/-- Byte length of 65536. -/
theorem byteLen_two_pow_sixteen : byteLen 65536 = 3 := by
  norm_num [byteLen, Nat.log2]

/-- Evaluation of the encoder at 18: the small-value branch keeps exponent 3
after shifting the mantissa up, producing 0x03120000. -/
theorem BigToCompact_eighteen : BigToCompact ((18 : Nat) : Int) = 51511296 := by
  unfold BigToCompact
  rw [if_neg (by norm_num)]
  simp only [Int.toNat_natCast, byteLen_eighteen]
  norm_num
  decide

/-- C8 counterexample: the compact round trip overshoots small targets.
For t = 18 (one byte), BigToCompact forces exponent 3 after shifting the
mantissa up, so CompactToBig returns 18·2^16 = 1179648 > 18, refuting
"CompactToBig (BigToCompact t) ≤ t" as claimed for every 256-bit target. -/
theorem C8_counterexample :
    CompactToBig (BigToCompact ((18 : Nat) : Int)) = (1179648 : Int) ∧
      ¬ CompactToBig (BigToCompact ((18 : Nat) : Int)) ≤ ((18 : Nat) : Int) := by
  rw [BigToCompact_eighteen]
  constructor
  · decide
  · decide

/-- C8 (amended): for every 256-bit target t that is zero or at least three
bytes long (t ≥ 2^16), CompactToBig (BigToCompact t) ≤ t, with equality
whenever t is exactly representable by a 3-byte mantissa at the encoder's
chosen exponent (compactDivisor t divides t).  Targets of one or two bytes
are mis-encoded (see the counterexample). -/
theorem C8_roundtrip (t : Nat) (h256 : t < 2 ^ 256) (hdom : t = 0 ∨ 65536 ≤ t) :
    CompactToBig (BigToCompact (t : Int)) ≤ (t : Int) ∧
      (compactDivisor t ∣ t → CompactToBig (BigToCompact (t : Int)) = (t : Int)) := by
  rcases hdom with rfl | ht
  · exact ⟨by decide, fun _ => by decide⟩
  · have ht0 : 0 < t := by omega
    have hL3 : 3 ≤ byteLen t := byteLen_ge_three ht
    have hL32 : byteLen t ≤ 32 := byteLen_le_32 ht0 h256
    obtain ⟨hm0low, hm0high⟩ := mantissa_bounds ht
    rw [BigToCompact_eval ht h256]
    by_cases hs : t / 256 ^ (byteLen t - 3) < 8388608
    · rw [if_pos hs, CompactToBig_pack hL3 (by omega) hs]
      have hcond : ¬ 128 ≤ t / 256 ^ (byteLen t - 1) := by
        rw [topByte_div ht]
        have h1 : t / 256 ^ (byteLen t - 3) / 65536 < 128 := by
          rw [Nat.div_lt_iff_lt_mul (by norm_num)]
          omega
        omega
      constructor
      · have hle := Nat.div_mul_le_self t (256 ^ (byteLen t - 3))
        exact_mod_cast hle
      · intro hdvd
        unfold compactDivisor at hdvd
        rw [if_neg hcond] at hdvd
        have hq := Nat.div_mul_cancel hdvd
        exact_mod_cast hq
    · push_neg at hs
      rw [if_neg (by omega)]
      have hm1 : t / 256 ^ (byteLen t - 2) < 65536 := by
        rw [Nat.div_lt_iff_lt_mul (pow_pos (by norm_num) _)]
        calc t < 256 ^ byteLen t := byteLen_upper t
          _ ≤ 65536 * 256 ^ (byteLen t - 2) := by
              rw [show (65536 : Nat) = 256 ^ 2 by norm_num, ← pow_add]
              apply Nat.pow_le_pow_right (by norm_num)
              omega
      rw [CompactToBig_pack (by omega) (by omega) (by omega)]
      have hexp : byteLen t + 1 - 3 = byteLen t - 2 := by omega
      rw [hexp]
      have hcond : 128 ≤ t / 256 ^ (byteLen t - 1) := by
        rw [topByte_div ht]
        rw [Nat.le_div_iff_mul_le (by norm_num)]
        omega
      constructor
      · have hle := Nat.div_mul_le_self t (256 ^ (byteLen t - 2))
        exact_mod_cast hle
      · intro hdvd
        unfold compactDivisor at hdvd
        rw [if_pos hcond] at hdvd
        have hq := Nat.div_mul_cancel hdvd
        exact_mod_cast hq

/-- Witness for C8: at t = 2^16 the hypotheses hold and the round trip is
exact. -/
theorem C8_roundtrip_witness :
    CompactToBig (BigToCompact ((65536 : Nat) : Int)) = ((65536 : Nat) : Int) :=
  (C8_roundtrip 65536 (by norm_num) (Or.inr le_rfl)).2 (by
    unfold compactDivisor
    rw [byteLen_two_pow_sixteen]
    norm_num)

/-! ## Transactions (mycoin/blockchain/transaction.go) -/

/-- Go struct TxInput (transaction.go lines 16-21). -/
structure TxInput where
  TxID : String
  Index : Int
  Sig : String
  PubKey : String
  deriving DecidableEq, Repr

/-- Go struct TxOutput (transaction.go lines 24-27). -/
structure TxOutput where
  Amount : Int
  To : String
  deriving DecidableEq, Repr

/-- Go struct Transaction (transaction.go lines 30-35). -/
structure Transaction where
  ID : String
  Inputs : List TxInput
  Outputs : List TxOutput
  IsCoinbase : Bool
  deriving DecidableEq, Repr

/-! ### encoding/json marshalling of transactions

Go `json.Marshal` on these structs emits the fields in declaration order
with the struct field names as keys.  Strings are escaped as Go does by
default (quote, backslash, the HTML characters and control characters).
One simplification: Go marshals a nil slice as `null` while this model
always emits an array; no theorem distinguishes the two. -/

/-- One character of Go JSON string escaping. -/
def jsonEscapeChar (c : Char) : List Char :=
  let n := c.toNat
  if n = 34 then [Char.ofNat 92, Char.ofNat 34]
  else if n = 92 then [Char.ofNat 92, Char.ofNat 92]
  else if n = 10 then [Char.ofNat 92, Char.ofNat 110]
  else if n = 13 then [Char.ofNat 92, Char.ofNat 114]
  else if n = 9 then [Char.ofNat 92, Char.ofNat 116]
  else if n = 60 ∨ n = 62 ∨ n = 38 ∨ n < 32 then
    [Char.ofNat 92, Char.ofNat 117, Char.ofNat 48, Char.ofNat 48,
     hexDigit (n / 16), hexDigit (n % 16)]
  else [c]

/-- A JSON string literal with Go escaping. -/
def jsonString (s : String) : String :=
  String.mk (Char.ofNat 34 :: (s.data.map jsonEscapeChar).flatten ++ [Char.ofNat 34])

/-- A JSON array from rendered elements. -/
def jsonArr (elems : List String) : String :=
  "[" ++ String.intercalate "," elems ++ "]"

/-- JSON rendering of a TxInput. -/
def jsonTxInput (inp : TxInput) : String :=
  "\x7b\"TxID\":" ++ jsonString inp.TxID ++ ",\"Index\":" ++ toString inp.Index ++
    ",\"Sig\":" ++ jsonString inp.Sig ++ ",\"PubKey\":" ++ jsonString inp.PubKey ++ "\x7d"

/-- JSON rendering of a TxOutput. -/
def jsonTxOutput (o : TxOutput) : String :=
  "\x7b\"Amount\":" ++ toString o.Amount ++ ",\"To\":" ++ jsonString o.To ++ "\x7d"

/-- Go `json.Marshal` of a Transaction, as bytes. -/
def jsonMarshalTx (tx : Transaction) : List Nat :=
  goBytes ("\x7b\"ID\":" ++ jsonString tx.ID ++
    ",\"Inputs\":" ++ jsonArr (tx.Inputs.map jsonTxInput) ++
    ",\"Outputs\":" ++ jsonArr (tx.Outputs.map jsonTxOutput) ++
    ",\"IsCoinbase\":" ++ (if tx.IsCoinbase then "true" else "false") ++ "\x7d")

/-- Transaction.cloneWithoutSign (transaction.go lines 165-179): clears the
ID and every input's Sig and PubKey. -/
def Transaction.cloneWithoutSign (tx : Transaction) : Transaction :=
  { tx with
    ID := "",
    Inputs := tx.Inputs.map fun i =>
      { TxID := i.TxID, Index := i.Index, Sig := "", PubKey := "" } }

/-- Transaction.CalcID (transaction.go lines 45-49): the ID Go assigns is
the SHA-256 of the JSON marshalling of the signature-free clone. -/
def Transaction.CalcID (tx : Transaction) : String :=
  hexEncode (sha256 (jsonMarshalTx tx.cloneWithoutSign))

/-- Transaction.IDForSig (transaction.go lines 156-162); the index argument
is not used by the digest. -/
def Transaction.IDForSig (tx : Transaction) (_idx : Nat) : List Nat :=
  sha256 (jsonMarshalTx tx.cloneWithoutSign)

/-- Transaction.Serialize (transaction.go lines 181-184) as raw bytes. -/
def Transaction.serializedBytes (tx : Transaction) : List Nat :=
  jsonMarshalTx tx

/-- Transaction.DeterministicID (transaction.go lines 237-280): a direct
byte-stream digest that includes the coinbase flag, the input count, and
for every input its TxID, 8-byte big-endian index, Sig and PubKey, then the
output count and each output's 8-byte big-endian amount and recipient. -/
def Transaction.DeterministicID (tx : Transaction) : String :=
  hexEncode (sha256 (
    (if tx.IsCoinbase then [1] else [0])
    ++ [tx.Inputs.length % 256]
    ++ (tx.Inputs.map fun i =>
          goBytes i.TxID ++ u64be (intToUint64 i.Index) ++
          goBytes i.Sig ++ goBytes i.PubKey).flatten
    ++ [tx.Outputs.length % 256]
    ++ (tx.Outputs.map fun o =>
          u64be (intToUint64 o.Amount) ++ goBytes o.To).flatten))

/-! ## UTXO set (mycoin/blockchain/utxo.go) -/

/-- Go struct UTXO (utxo.go lines 11-16). -/
structure UTXO where
  TxID : String
  Index : Int
  Amount : Int
  To : String
  deriving DecidableEq, Repr

/-- Go struct UTXOSet (utxo.go lines 19-23).  The shared BoltDB handle is
modelled by threading the store through the operations that write it. -/
structure UTXOSet where
  Set : List (String × UTXO)
  AddrIndex : List (String × List String)
  deriving DecidableEq, Repr

/-- Go `fmt.Sprintf("%s_%d", txid, index)` used as the outpoint key. -/
def utxoKey (txid : String) (index : Int) : String :=
  txid ++ "_" ++ toString index

/-- UTXOSet.Get (utxo.go lines 168-182). -/
def UTXOSet.Get (u : UTXOSet) (txid : String) (index : Int) : Option TxOutput :=
  match mapGet u.Set (utxoKey txid index) with
  | none => none
  | some utxo => some { Amount := utxo.Amount, To := utxo.To }

/-- The input-sum loop of Transaction.Fee: `none` models its early
`return 0` when a referenced outpoint is missing. -/
def feeInputSum (u : UTXOSet) : List TxInput → Option Int
  | [] => some 0
  | i :: rest =>
    match u.Get i.TxID i.Index with
    | none => none
    | some out =>
      match feeInputSum u rest with
      | none => none
      | some s => some (out.Amount + s)

/-- The output sum of a transaction. -/
def outputSum (tx : Transaction) : Int :=
  tx.Outputs.foldl (fun acc o => acc + o.Amount) 0

/-- Transaction.Fee (transaction.go lines 199-223). -/
def Transaction.Fee (tx : Transaction) (u : UTXOSet) : Int :=
  if tx.IsCoinbase then 0
  else
    match feeInputSum u tx.Inputs with
    | none => 0
    | some inSum =>
      let fee := inSum - outputSum tx
      if fee < 0 then 0 else fee

/-! ## Claim C3: transaction identity vs. signatures -/

/-- Pointwise equality of input outpoints (TxID and Index agree, Sig and
PubKey are unconstrained). -/
def sameOutpointsB : List TxInput → List TxInput → Bool
  | [], [] => true
  | a :: as, b :: bs =>
    (a.TxID == b.TxID) && (a.Index == b.Index) && sameOutpointsB as bs
  | _, _ => false

/-- Two transactions differ at most in the Sig and PubKey strings of their
inputs: same ID field, same coinbase flag, same outputs, and inputs with
the same outpoints in the same order. -/
def differOnlyInSignaturesB (t1 t2 : Transaction) : Bool :=
  (t1.ID == t2.ID) && (t1.IsCoinbase == t2.IsCoinbase) &&
    (t1.Outputs == t2.Outputs) && sameOutpointsB t1.Inputs t2.Inputs

/-- Inputs with equal outpoints are cleaned identically by
cloneWithoutSign. -/
theorem sameOutpoints_clean {l1 l2 : List TxInput}
    (h : sameOutpointsB l1 l2 = true) :
    l1.map (fun i => TxInput.mk i.TxID i.Index "" "") =
      l2.map (fun i => TxInput.mk i.TxID i.Index "" "") := by
  induction l1 generalizing l2 with
  | nil =>
    cases l2 with
    | nil => rfl
    | cons b bs => simp [sameOutpointsB] at h
  | cons a as ih =>
    cases l2 with
    | nil => simp [sameOutpointsB] at h
    | cons b bs =>
      simp only [sameOutpointsB, Bool.and_eq_true, beq_iff_eq] at h
      obtain ⟨⟨hid, hix⟩, hrest⟩ := h
      simp only [List.map_cons, ih hrest, hid, hix]

/-- C3 (amended): the JSON-based ID computation (Transaction.CalcID via
cloneWithoutSign) is a pure function of the non-signature content: any two
transactions that differ only in the Sig and PubKey strings of their inputs
are assigned the same CalcID, so signing a transaction never changes the ID
that CalcID assigns.  (Transaction.DeterministicID, by contrast, hashes the
Sig and PubKey fields: see the counterexample.) -/
theorem C3_calcID_signature_independent (t1 t2 : Transaction)
    (h : differOnlyInSignaturesB t1 t2 = true) :
    t1.CalcID = t2.CalcID := by
  suffices hs : t1.cloneWithoutSign = t2.cloneWithoutSign by
    unfold Transaction.CalcID
    rw [hs]
  unfold differOnlyInSignaturesB at h
  simp only [Bool.and_eq_true, beq_iff_eq] at h
  obtain ⟨⟨⟨hid, hcb⟩, houts⟩, hins⟩ := h
  have h1 := sameOutpoints_clean hins
  unfold Transaction.cloneWithoutSign
  cases t1
  cases t2
  simp only at hid hcb houts h1 ⊢
  rw [Transaction.mk.injEq]
  exact ⟨rfl, h1, houts, hcb⟩

/-- First transaction of the C3 counterexample: a coinbase-shaped
transaction as NewCoinbase builds (transaction.go lines 126-153), whose
dummy input carries the "timestamp" string in Sig. -/
def c3tx1 : Transaction :=
  { ID := "",
    Inputs := [{ TxID := "", Index := -1, Sig := "1700000001", PubKey := "Coinbase" }],
    Outputs := [{ Amount := 100, To := "addr1" }],
    IsCoinbase := true }

/-- Second transaction of the C3 counterexample: identical except for the
Sig string of its single input. -/
def c3tx2 : Transaction :=
  { ID := "",
    Inputs := [{ TxID := "", Index := -1, Sig := "1700000002", PubKey := "Coinbase" }],
    Outputs := [{ Amount := 100, To := "addr1" }],
    IsCoinbase := true }

/-- C3 counterexample: Transaction.DeterministicID writes each input's Sig
(and PubKey) into the digest (transaction.go line 259), so two transactions
that differ only in a Sig string receive different IDs from it.  This is
how coinbase transactions get unique IDs, and it refutes the claim for the
DeterministicID computation. -/
theorem C3_counterexample :
    differOnlyInSignaturesB c3tx1 c3tx2 = true ∧
      Transaction.DeterministicID c3tx1 ≠ Transaction.DeterministicID c3tx2 := by
  constructor
  · decide
  · decide

/-- Witness for C3: the amended theorem applied to the concrete pair. -/
theorem C3_calcID_witness : Transaction.CalcID c3tx1 = Transaction.CalcID c3tx2 :=
  C3_calcID_signature_independent c3tx1 c3tx2 (by decide)

/-! ## Blocks (mycoin/blockchain/block.go) -/

/-- Go struct Block (block.go lines 20-38).  The display-only fields
TargetHex, MerkleHex and HashHex enter no embedded computation and are
omitted. -/
structure Block where
  Height : Nat
  PrevHash : List Nat
  Timestamp : Int
  Nonce : Nat
  Target : Int
  MerkleRoot : List Nat
  Transactions : List Transaction
  Miner : String
  Reward : Int
  Hash : List Nat
  Bits : Nat
  deriving DecidableEq, Repr

/-- Block.CalcHeader (block.go lines 156-186): height ‖ prev ‖ timestamp ‖
bits ‖ nonce ‖ merkle, fixed-width fields little-endian. -/
def Block.CalcHeader (b : Block) : List Nat :=
  u64le b.Height ++ b.PrevHash ++ u64le (intToUint64 b.Timestamp) ++
    u32le b.Bits ++ u64le b.Nonce ++ b.MerkleRoot

/-- Block.CalcHash (block.go lines 188-192). -/
def Block.CalcHash (b : Block) : List Nat :=
  sha256 b.CalcHeader

/-- hashMeetsTarget (block.go lines 194-197): the hash read as a big-endian
integer must not exceed the target. -/
def hashMeetsTarget (hash : List Nat) (target : Int) : Bool :=
  (natFromBytesBE hash : Int) ≤ target

/-- hashPair (block.go lines 328-332): double SHA-256 of the
concatenation. -/
def hashPair (a b : List Nat) : List Nat :=
  sha256 (sha256 (a ++ b))

/-- One layer of the Merkle tree (the inner loop of ComputeMerkleRoot),
duplicating the last element of an odd layer. -/
def merklePairUp : List (List Nat) → List (List Nat)
  | [] => []
  | [x] => [hashPair x x]
  | x :: y :: rest => hashPair x y :: merklePairUp rest

/-- The outer `for len(layer) > 1` loop, with a fuel bound for structural
recursion. -/
def merkleReduce : Nat → List (List Nat) → List (List Nat)
  | 0, layer => layer
  | fuel + 1, layer =>
    if layer.length ≤ 1 then layer else merkleReduce fuel (merklePairUp layer)

/-- ComputeMerkleRoot (block.go lines 298-326).  Transaction IDs are
hex-decoded with the error ignored (partial decode). -/
def ComputeMerkleRoot (txs : List Transaction) : List Nat :=
  if txs = [] then sha256 []
  else
    let layer := txs.map fun tx => hexDecodePartial tx.ID
    (merkleReduce layer.length layer).headD []

/-! ## Serialized payloads and the key/value store

The on-disk store (package `mycoin/database`, not part of the core
sources; the spec lists it as an external collaborator with bucketed
get/put/delete/iterate) is modelled as an association list keyed by
(bucket, key).  A Go `[]byte` value is modelled by what it encodes: the
JSON encoders are injective, so a byte slice holding `tx.Serialize()` is
determined by the transaction, and likewise for blocks, index entries and
plain strings; `raw` covers arbitrary other bytes.  `DeserializeTransaction`
succeeds exactly on transaction payloads, as Go's `json.Unmarshal` does on
the corresponding encodings. -/

/-- The json-tagged fields of node.BlockIndex that json.Marshal persists to
the "index" bucket (mycoin/node: BlockIndex; CumWorkInt, Block, Parent and
Children carry the `json:"-"` tag and are not serialized). -/
structure IndexData where
  hash : String
  height : Nat
  cumwork : String
  prevhash : String
  timestamp : Int
  bits : Nat
  deriving DecidableEq, Repr

/-- The json-tagged fields of blockchain.TxIndexEntry (transaction.go
lines 37-42), written to the "txindex" bucket. -/
structure TxIndexEntry where
  BlockHash : String
  Height : Nat
  TxOffset : Nat
  Pruned : Bool
  deriving DecidableEq, Repr

/-- Byte payloads, identified by what they encode. -/
inductive Bytes where
  | tx (t : Transaction)
  | block (b : Block)
  | index (e : IndexData)
  | str (s : String)
  | utxo (x : UTXO)
  | txidx (e : TxIndexEntry)
  | raw (bs : List Nat)
  deriving DecidableEq, Repr

/-- blockchain.DeserializeTransaction (transaction.go lines 191-197). -/
def DeserializeTransaction : Bytes → Option Transaction
  | .tx t => some t
  | _ => none

/-- Transaction.Serialize (transaction.go lines 181-184). -/
def Transaction.Serialize (tx : Transaction) : Bytes :=
  .tx tx

/-- Block.Serialize (block.go lines 202-235). -/
def Block.Serialize (b : Block) : Bytes :=
  .block b

/-- blockchain.HashTxBytes (transaction.go lines 51-54): SHA-256 of the raw
bytes.  For payload kinds the embedded code never hashes (blocks, index
entries) the digest of the empty slice stands in. -/
def HashTxBytes : Bytes → String
  | .tx t => hexEncode (sha256 (jsonMarshalTx t))
  | .str s => hexEncode (sha256 (goBytes s))
  | .raw bs => hexEncode (sha256 bs)
  | _ => hexEncode (sha256 [])

/-- The key/value store: (bucket, key) to payload. -/
abbrev DB := List ((String × String) × Bytes)

/-- BoltDB.Put. -/
def dbPut (db : DB) (bucket key : String) (v : Bytes) : DB :=
  mapPut db (bucket, key) v

/-- BoltDB.Delete. -/
def dbDelete (db : DB) (bucket key : String) : DB :=
  mapDel db (bucket, key)

/-- BoltDB.Get. -/
def dbGet (db : DB) (bucket key : String) : Option Bytes :=
  mapGet db (bucket, key)

/-- BoltDB.ClearBucket. -/
def dbClearBucket (db : DB) (bucket : String) : DB :=
  db.filter fun p => !(p.1.1 == bucket)

/-! ## Mempool (mycoin/mycoin/mempool/mempool.go)

The mutexes of the Go code serialize access and are not modelled; note
that `addTxUnsafe` calls `m.Has` (which takes the already-held mutex) —
the model performs the intended map lookup. -/

/-- Go struct Mempool (mempool.go lines 12-20); the BoltDB handle is
threaded through the operations that write it. -/
structure Mempool where
  Txs : List (String × Bytes)
  Spent : List (String × String)
  Parents : List (String × List String)
  Children : List (String × List String)
  MaxTx : Nat
  deriving DecidableEq, Repr

/-- Mempool.Has (mempool.go lines 48-53). -/
def Mempool.Has (m : Mempool) (txid : String) : Bool :=
  (mapGet m.Txs txid).isSome

/-- Mempool.findConflicts (mempool.go lines 165-176): the set of resident
txids already claiming one of the inputs' outpoints.  The Go map of txids
is modelled as a list deduplicated in first-occurrence order. -/
def Mempool.findConflicts (m : Mempool) (tx : Transaction) : List String :=
  tx.Inputs.foldl
    (fun acc i =>
      match mapGet m.Spent (utxoKey i.TxID i.Index) with
      | some txid => if acc.contains txid then acc else acc ++ [txid]
      | none => acc)
    []

/-- Mempool.removeTxUnsafe (mempool.go lines 202-216): drops the spent-map
entries when the stored bytes decode, then deletes the tx and its
persistent mirror. -/
def Mempool.removeTxUnsafe (m : Mempool) (db : DB) (txid : String) :
    Mempool × DB :=
  let spent' :=
    match (mapGet m.Txs txid).bind DeserializeTransaction with
    | some tx =>
      tx.Inputs.foldl (fun sp i => mapDel sp (utxoKey i.TxID i.Index)) m.Spent
    | none => m.Spent
  ({ m with Spent := spent', Txs := mapDel m.Txs txid },
   dbDelete db ("mempool") txid)

/-- Mempool.addTxUnsafe (mempool.go lines 178-200): stores the bytes,
mirrors them to the "mempool" bucket, claims each input's outpoint and
records parent/child adjacency when the input's source tx is resident. -/
def Mempool.addTxUnsafe (m : Mempool) (db : DB) (txid : String)
    (tx : Transaction) (txBytes : Bytes) : Mempool × DB :=
  let txs' := mapPut m.Txs txid txBytes
  let db' := dbPut db ("mempool") txid txBytes
  let step := fun (acc : List (String × String) × List (String × List String)
        × List (String × List String)) (i : TxInput) =>
    let sp' := mapPut acc.1 (utxoKey i.TxID i.Index) txid
    if (mapGet txs' i.TxID).isSome then
      (sp',
       mapPut acc.2.1 txid ((mapGet acc.2.1 txid).getD [] ++ [i.TxID]),
       mapPut acc.2.2 i.TxID ((mapGet acc.2.2 i.TxID).getD [] ++ [txid]))
    else (sp', acc.2.1, acc.2.2)
  let res := tx.Inputs.foldl step (m.Spent, m.Parents, m.Children)
  ({ m with
     Txs := txs'
     Spent := res.1
     Parents := res.2.1
     Children := res.2.2 }, db')

/-- Mempool.findLowestFeeTx (mempool.go lines 218-236): scans the pool for
the strictly lowest fee, starting from MaxInt; undecodable entries are
skipped.  The Go map iteration order is fixed to list order (it only
affects which of several equal-fee transactions is named). -/
def Mempool.findLowestFeeTx (m : Mempool) (u : UTXOSet) : String × Int :=
  m.Txs.foldl
    (fun acc p =>
      match DeserializeTransaction p.2 with
      | none => acc
      | some tx =>
        let fee := tx.Fee u
        if fee < acc.2 then (p.1, fee) else acc)
    ("", 9223372036854775807)

/-- The RBF fee-comparison loop of AddTxRBF (mempool.go lines 76-84):
`some false` when some conflicting fee is at least the incoming fee,
`some true` when every conflict pays strictly less, `none` when a conflict
cannot be resolved to a stored transaction (the Go code dereferences the
nil result of the failed decode and panics). -/
def rbfFeeCheck (m : Mempool) (u : UTXOSet) (newFee : Int) :
    List String → Option Bool
  | [] => some true
  | c :: rest =>
    match (mapGet m.Txs c).bind DeserializeTransaction with
    | none => none
    | some oldTx =>
      if newFee ≤ oldTx.Fee u then some false
      else rbfFeeCheck m u newFee rest

/-- The conflict-removal loop of AddTxRBF (mempool.go lines 86-90). -/
def rbfRemoveConflicts (m : Mempool) (db : DB) (cs : List String) :
    Mempool × DB :=
  cs.foldl (fun acc c => acc.1.removeTxUnsafe acc.2 c) (m, db)

/-- Mempool.AddTxRBF (mempool.go lines 55-120): decode, compute the fee,
resolve conflicts by replace-by-fee, evict the lowest-fee resident when at
capacity, and insert. -/
def Mempool.AddTxRBF (m : Mempool) (db : DB) (txid : String)
    (txBytes : Bytes) (u : UTXOSet) : Option (Bool × Mempool × DB) :=
  match DeserializeTransaction txBytes with
  | none => some (false, m, db)
  | some newTx =>
    let newFee := newTx.Fee u
    let conflicts := m.findConflicts newTx
    match rbfFeeCheck m u newFee conflicts with
    | none => none
    | some false => some (false, m, db)
    | some true =>
      let (m1, db1) := rbfRemoveConflicts m db conflicts
      if m1.Txs.length ≥ m1.MaxTx then
        let (lowestTxid, lowestFee) := m1.findLowestFeeTx u
        if lowestTxid = "" then some (false, m1, db1)
        else if newFee ≤ lowestFee then some (false, m1, db1)
        else
          let (m2, db2) := m1.removeTxUnsafe db1 lowestTxid
          let (m3, db3) := m2.addTxUnsafe db2 txid newTx txBytes
          some (true, m3, db3)
      else
        let (m3, db3) := m1.addTxUnsafe db1 txid newTx txBytes
        some (true, m3, db3)

/-- Mempool.Remove (mempool.go lines 238-243). -/
def Mempool.Remove (m : Mempool) (db : DB) (txid : String) : Mempool × DB :=
  m.removeTxUnsafe db txid

/-- Mempool.Clear (mempool.go lines 147-153): clears Txs and Spent only. -/
def Mempool.Clear (m : Mempool) : Mempool :=
  { m with Txs := [], Spent := [] }

/-- Mempool.GetAll (mempool.go lines 136-145). -/
def Mempool.GetAll (m : Mempool) : List (String × Bytes) :=
  m.Txs

/-- Mempool.Reset (mempool.go lines 22-31). -/
def Mempool.Reset (m : Mempool) : Mempool :=
  { m with Txs := [], Spent := [], Parents := [], Children := [] }

/-! ## Claim C7: replace-by-fee admission -/

/-- The Txs component of removeTxUnsafe. -/
theorem removeTxUnsafe_Txs (m : Mempool) (db : DB) (txid : String) :
    (m.removeTxUnsafe db txid).1.Txs = mapDel m.Txs txid := rfl

/-- removeTxUnsafe keeps the capacity bound. -/
theorem removeTxUnsafe_MaxTx (m : Mempool) (db : DB) (txid : String) :
    (m.removeTxUnsafe db txid).1.MaxTx = m.MaxTx := rfl

/-- Lookup after the conflict-removal loop: removed keys are gone, others
are untouched. -/
theorem rbfRemoveConflicts_lookup (cs : List String) (m : Mempool) (db : DB)
    (x : String) :
    mapGet (rbfRemoveConflicts m db cs).1.Txs x =
      if x ∈ cs then none else mapGet m.Txs x := by
  induction cs generalizing m db with
  | nil => simp [rbfRemoveConflicts]
  | cons c rest ih =>
    have hstep : rbfRemoveConflicts m db (c :: rest) =
        rbfRemoveConflicts (m.removeTxUnsafe db c).1 (m.removeTxUnsafe db c).2
          rest := rfl
    rw [hstep, ih]
    by_cases hc : x = c
    · subst hc
      rw [removeTxUnsafe_Txs]
      by_cases hr : x ∈ rest
      · simp [hr]
      · rw [if_neg hr, mapGet_mapDel_self]
        simp
    · by_cases hr : x ∈ rest
      · simp [hr, List.mem_cons, hc]
      · have hnotin : x ∉ c :: rest := by simp [hc, hr]
        rw [if_neg hr, if_neg hnotin, removeTxUnsafe_Txs,
          mapGet_mapDel_ne _ _ _ hc]

/-- The conflict-removal loop keeps the capacity bound. -/
theorem rbfRemoveConflicts_MaxTx (cs : List String) (m : Mempool) (db : DB) :
    (rbfRemoveConflicts m db cs).1.MaxTx = m.MaxTx := by
  induction cs generalizing m db with
  | nil => rfl
  | cons c rest ih =>
    have hstep : rbfRemoveConflicts m db (c :: rest) =
        rbfRemoveConflicts (m.removeTxUnsafe db c).1 (m.removeTxUnsafe db c).2
          rest := rfl
    rw [hstep, ih, removeTxUnsafe_MaxTx]

/-- When some resolvable conflict pays at least the incoming fee, the RBF
check loop rejects. -/
theorem rbfFeeCheck_blocked {m : Mempool} {u : UTXOSet} {newFee : Int}
    {cs : List String}
    (hres : ∀ c ∈ cs, ∃ oldTx,
      (mapGet m.Txs c).bind DeserializeTransaction = some oldTx)
    (hblk : ∃ c ∈ cs, ∀ oldTx,
      (mapGet m.Txs c).bind DeserializeTransaction = some oldTx →
        newFee ≤ oldTx.Fee u) :
    rbfFeeCheck m u newFee cs = some false := by
  induction cs with
  | nil =>
    obtain ⟨c, hc, _⟩ := hblk
    simp at hc
  | cons c rest ih =>
    obtain ⟨o, ho⟩ := hres c (by simp)
    by_cases hle : newFee ≤ o.Fee u
    · simp [rbfFeeCheck, ho, hle]
    · obtain ⟨c', hc', hb⟩ := hblk
      rcases List.mem_cons.mp hc' with hh | ht
      · subst hh
        exact absurd (hb o ho) hle
      · simp only [rbfFeeCheck, ho, if_neg hle]
        exact ih (fun x hx => hres x (List.mem_cons_of_mem _ hx)) ⟨c', ht, hb⟩

/-- When every resolvable conflict pays strictly less than the incoming
fee, the RBF check loop accepts. -/
theorem rbfFeeCheck_allBelow {m : Mempool} {u : UTXOSet} {newFee : Int}
    {cs : List String}
    (hres : ∀ c ∈ cs, ∃ oldTx,
      (mapGet m.Txs c).bind DeserializeTransaction = some oldTx)
    (hall : ∀ c ∈ cs, ∀ oldTx,
      (mapGet m.Txs c).bind DeserializeTransaction = some oldTx →
        oldTx.Fee u < newFee) :
    rbfFeeCheck m u newFee cs = some true := by
  induction cs with
  | nil => rfl
  | cons c rest ih =>
    obtain ⟨o, ho⟩ := hres c (by simp)
    have hlt := hall c (by simp) o ho
    simp only [rbfFeeCheck, ho, if_neg (by omega : ¬ newFee ≤ o.Fee u)]
    exact ih (fun x hx => hres x (List.mem_cons_of_mem _ hx))
      (fun x hx => hall x (List.mem_cons_of_mem _ hx))

/-- Evaluation of AddTxRBF once the decode succeeds and the RBF fee check
passes. -/
theorem AddTxRBF_eval (m : Mempool) (db : DB) (txid : String)
    (txBytes : Bytes) (u : UTXOSet) (newTx : Transaction)
    (hdec : DeserializeTransaction txBytes = some newTx)
    (hchk : rbfFeeCheck m u (newTx.Fee u) (m.findConflicts newTx) = some true) :
    m.AddTxRBF db txid txBytes u =
      (let r := rbfRemoveConflicts m db (m.findConflicts newTx)
       if r.1.Txs.length ≥ r.1.MaxTx then
         let lw := r.1.findLowestFeeTx u
         if lw.1 = "" then some (false, r.1, r.2)
         else if newTx.Fee u ≤ lw.2 then some (false, r.1, r.2)
         else
           let r2 := r.1.removeTxUnsafe r.2 lw.1
           let r3 := r2.1.addTxUnsafe r2.2 txid newTx txBytes
           some (true, r3.1, r3.2)
       else
         let r3 := r.1.addTxUnsafe r.2 txid newTx txBytes
         some (true, r3.1, r3.2)) := by
  unfold Mempool.AddTxRBF
  simp only [hdec, hchk]

/-- C7 (amended): for an admission whose inputs conflict with resident
transactions (all conflicts resolvable, incoming txid not itself a
conflict): (1) if some conflicting transaction pays at least the incoming
fee, the admission is rejected with the mempool unchanged; (2) if the
incoming fee strictly exceeds every conflicting fee, every conflict is
removed from the resulting pool whether or not the transaction is admitted,
the transaction is present when admitted, and it is admitted whenever the
pool is below capacity after the conflicts are removed.  (Admission can
still fail at the capacity check even though the fee beats every conflict —
see the counterexample — and in that case the conflicts stay removed.) -/
theorem C7_rbf (m : Mempool) (db : DB) (txid : String) (txBytes : Bytes)
    (u : UTXOSet) (newTx : Transaction)
    (hdec : DeserializeTransaction txBytes = some newTx)
    (hres : ∀ c ∈ m.findConflicts newTx, ∃ oldTx,
      (mapGet m.Txs c).bind DeserializeTransaction = some oldTx)
    (htxid : txid ∉ m.findConflicts newTx) :
    ((∃ c ∈ m.findConflicts newTx, ∀ oldTx,
        (mapGet m.Txs c).bind DeserializeTransaction = some oldTx →
          newTx.Fee u ≤ oldTx.Fee u) →
      m.AddTxRBF db txid txBytes u = some (false, m, db))
    ∧ ((∀ c ∈ m.findConflicts newTx, ∀ oldTx,
        (mapGet m.Txs c).bind DeserializeTransaction = some oldTx →
          oldTx.Fee u < newTx.Fee u) →
      ∃ ok m' db', m.AddTxRBF db txid txBytes u = some (ok, m', db')
        ∧ (∀ c ∈ m.findConflicts newTx, mapGet m'.Txs c = none)
        ∧ (ok = true → mapGet m'.Txs txid = some txBytes)
        ∧ ((rbfRemoveConflicts m db (m.findConflicts newTx)).1.Txs.length <
            m.MaxTx → ok = true)) := by
  constructor
  · intro hblk
    unfold Mempool.AddTxRBF
    simp only [hdec, rbfFeeCheck_blocked hres hblk]
  · intro hall
    have hchk := rbfFeeCheck_allBelow hres hall
    rw [AddTxRBF_eval m db txid txBytes u newTx hdec hchk]
    simp only []
    set r := rbfRemoveConflicts m db (m.findConflicts newTx) with hr
    have hmax : r.1.MaxTx = m.MaxTx := rbfRemoveConflicts_MaxTx _ _ _
    have habsent : ∀ c ∈ m.findConflicts newTx, mapGet r.1.Txs c = none := by
      intro c hc
      rw [hr, rbfRemoveConflicts_lookup]
      simp [hc]
    by_cases hcap : r.1.Txs.length ≥ r.1.MaxTx
    · rw [if_pos hcap]
      by_cases hlw : (r.1.findLowestFeeTx u).1 = ""
      · rw [if_pos hlw]
        refine ⟨false, r.1, r.2, rfl, habsent, by simp, ?_⟩
        intro hlen
        omega
      · rw [if_neg hlw]
        by_cases hfee : newTx.Fee u ≤ (r.1.findLowestFeeTx u).2
        · rw [if_pos hfee]
          refine ⟨false, r.1, r.2, rfl, habsent, by simp, ?_⟩
          intro hlen
          omega
        · rw [if_neg hfee]
          refine ⟨true, _, _, rfl, ?_, ?_, fun _ => rfl⟩
          · intro c hc
            have hct : c ≠ txid := fun h => htxid (h ▸ hc)
            rw [show ((r.1.removeTxUnsafe r.2 (r.1.findLowestFeeTx u).1).1.addTxUnsafe
                (r.1.removeTxUnsafe r.2 (r.1.findLowestFeeTx u).1).2 txid newTx
                txBytes).1.Txs =
              mapPut (r.1.removeTxUnsafe r.2 (r.1.findLowestFeeTx u).1).1.Txs
                txid txBytes from rfl]
            rw [mapGet_mapPut_ne _ _ _ _ hct, removeTxUnsafe_Txs]
            by_cases hcl : c = (r.1.findLowestFeeTx u).1
            · rw [hcl, mapGet_mapDel_self]
            · rw [mapGet_mapDel_ne _ _ _ hcl]
              exact habsent c hc
          · intro _
            rw [show ((r.1.removeTxUnsafe r.2 (r.1.findLowestFeeTx u).1).1.addTxUnsafe
                (r.1.removeTxUnsafe r.2 (r.1.findLowestFeeTx u).1).2 txid newTx
                txBytes).1.Txs =
              mapPut (r.1.removeTxUnsafe r.2 (r.1.findLowestFeeTx u).1).1.Txs
                txid txBytes from rfl]
            exact mapGet_mapPut_self _ _ _
    · rw [if_neg hcap]
      refine ⟨true, _, _, rfl, ?_, ?_, fun _ => rfl⟩
      · intro c hc
        have hct : c ≠ txid := fun h => htxid (h ▸ hc)
        rw [show (r.1.addTxUnsafe r.2 txid newTx txBytes).1.Txs =
            mapPut r.1.Txs txid txBytes from rfl]
        rw [mapGet_mapPut_ne _ _ _ _ hct]
        exact habsent c hc
      · intro _
        rw [show (r.1.addTxUnsafe r.2 txid newTx txBytes).1.Txs =
            mapPut r.1.Txs txid txBytes from rfl]
        exact mapGet_mapPut_self _ _ _

/-- UTXO set for the C7 scenario: three funded outpoints of 10 each. -/
def c7u : UTXOSet :=
  { Set := [("a_0", { TxID := "a", Index := 0, Amount := 10, To := "X" }),
            ("b_0", { TxID := "b", Index := 0, Amount := 10, To := "X" }),
            ("c_0", { TxID := "c", Index := 0, Amount := 10, To := "X" })],
    AddrIndex := [] }

/-- Resident transaction t1: spends a_0, fee 1. -/
def c7t1 : Transaction :=
  { ID := "t1", Inputs := [{ TxID := "a", Index := 0, Sig := "s", PubKey := "p" }],
    Outputs := [{ Amount := 9, To := "Y" }], IsCoinbase := false }

/-- Resident transaction t2: spends b_0, fee 5. -/
def c7t2 : Transaction :=
  { ID := "t2", Inputs := [{ TxID := "b", Index := 0, Sig := "s", PubKey := "p" }],
    Outputs := [{ Amount := 5, To := "Y" }], IsCoinbase := false }

/-- Resident transaction t3: spends c_0, fee 5. -/
def c7t3 : Transaction :=
  { ID := "t3", Inputs := [{ TxID := "c", Index := 0, Sig := "s", PubKey := "p" }],
    Outputs := [{ Amount := 5, To := "Y" }], IsCoinbase := false }

/-- Incoming transaction t4: double-spends a_0 with fee 2, strictly more
than the conflicting t1's fee 1. -/
def c7t4 : Transaction :=
  { ID := "t4", Inputs := [{ TxID := "a", Index := 0, Sig := "s2", PubKey := "p" }],
    Outputs := [{ Amount := 8, To := "Z" }], IsCoinbase := false }

/-- A mempool holding t1, t2, t3 with capacity 2 (over capacity, as the
reorganization path can produce by writing the Txs map directly). -/
def c7m : Mempool :=
  { Txs := [("t1", Bytes.tx c7t1), ("t2", Bytes.tx c7t2), ("t3", Bytes.tx c7t3)],
    Spent := [("a_0", "t1"), ("b_0", "t2"), ("c_0", "t3")],
    Parents := [], Children := [], MaxTx := 2 }

/-- C7 counterexample: t4's fee (2) strictly exceeds the fee of its only
conflict t1 (1), yet AddTxRBF rejects it — after removing the conflicts the
pool is still at capacity and the lowest resident fee (5) is not exceeded.
This refutes the claimed "if and only if"; moreover the conflict t1 has
been removed although the admission failed. -/
theorem C7_counterexample :
    c7m.findConflicts c7t4 = ["t1"] ∧
      (mapGet c7m.Txs "t1").bind DeserializeTransaction = some c7t1 ∧
      c7t1.Fee c7u < c7t4.Fee c7u ∧
      (c7m.AddTxRBF [] "t4" (Bytes.tx c7t4) c7u).map (fun r => r.1) =
        some false ∧
      (c7m.AddTxRBF [] "t4" (Bytes.tx c7t4) c7u).map
        (fun r => mapGet r.2.1.Txs "t1") = some none := by
  refine ⟨by decide, by decide, by decide, by decide, by decide⟩

/-- The same pool with ample capacity, for the witness. -/
def c7mBig : Mempool :=
  { Txs := [("t1", Bytes.tx c7t1), ("t2", Bytes.tx c7t2), ("t3", Bytes.tx c7t3)],
    Spent := [("a_0", "t1"), ("b_0", "t2"), ("c_0", "t3")],
    Parents := [], Children := [], MaxTx := 100 }

/-- An incoming transaction with the same outpoint and fee equal to the
conflict's fee (the S4 "tx3" case). -/
def c7t5 : Transaction :=
  { ID := "t5", Inputs := [{ TxID := "a", Index := 0, Sig := "s3", PubKey := "p" }],
    Outputs := [{ Amount := 9, To := "Z" }], IsCoinbase := false }

/-- Witness for C7: an incoming fee merely equal to the conflict's fee is
rejected with the mempool unchanged. -/
theorem C7_rbf_witness :
    c7mBig.AddTxRBF [] "t5" (Bytes.tx c7t5) c7u = some (false, c7mBig, []) :=
  (C7_rbf c7mBig [] "t5" (Bytes.tx c7t5) c7u c7t5 rfl
    (by
      intro c hc
      have hc1 : c = "t1" := by
        have : c7mBig.findConflicts c7t5 = ["t1"] := by decide
        rw [this] at hc
        simpa using hc
      subst hc1
      exact ⟨c7t1, by decide⟩)
    (by decide)).1
    ⟨"t1", by decide, fun oldTx h => by
      have hcomp : (mapGet c7mBig.Txs ("t1")).bind DeserializeTransaction =
          some c7t1 := by decide
      rw [hcomp] at h
      have ho : c7t1 = oldTx := Option.some.inj h
      rw [← ho]
      decide⟩

/-! ## Claim C10: the fee function -/

/-- C10: Transaction.Fee is non-negative and total: it returns 0 for a
coinbase, 0 when some input outpoint is missing from the UTXO set (the
input-sum loop aborts), 0 when the output sum exceeds the input sum, and
the input sum minus the output sum otherwise.  AddTxRBF and
findLowestFeeTx call this same function for their replace-by-fee and
eviction comparisons, so an unfunded transaction competes with fee 0
there. -/
theorem C10_fee_total (tx : Transaction) (u : UTXOSet) :
    0 ≤ tx.Fee u
    ∧ (tx.IsCoinbase = true → tx.Fee u = 0)
    ∧ (tx.IsCoinbase = false → feeInputSum u tx.Inputs = none → tx.Fee u = 0)
    ∧ (∀ inSum : Int, tx.IsCoinbase = false →
        feeInputSum u tx.Inputs = some inSum →
        (inSum < outputSum tx → tx.Fee u = 0)
        ∧ (outputSum tx ≤ inSum → tx.Fee u = inSum - outputSum tx)) := by
  refine ⟨?_, ?_, ?_, ?_⟩
  · unfold Transaction.Fee
    by_cases hcb : tx.IsCoinbase
    · simp [hcb]
    · simp only [hcb, if_false, Bool.false_eq_true]
      cases hin : feeInputSum u tx.Inputs with
      | none => simp
      | some inSum =>
        simp only []
        by_cases hneg : inSum - outputSum tx < 0
        · simp [hneg]
        · simp [hneg]
          omega
  · intro hcb
    unfold Transaction.Fee
    simp [hcb]
  · intro hcb hnone
    unfold Transaction.Fee
    simp [hcb, hnone]
  · intro inSum hcb hsome
    unfold Transaction.Fee
    simp only [hcb, Bool.false_eq_true, if_false, hsome]
    constructor
    · intro hlt
      simp only [if_pos (by omega : inSum - outputSum tx < 0)]
    · intro hle
      simp only [if_neg (by omega : ¬ inSum - outputSum tx < 0)]

/-- An unfunded transaction for the C10 witness: its input outpoint is not
in c7u. -/
def c10unfunded : Transaction :=
  { ID := "u1", Inputs := [{ TxID := "zz", Index := 0, Sig := "s", PubKey := "p" }],
    Outputs := [{ Amount := 3, To := "Y" }], IsCoinbase := false }

/-- Witness for C10: the theorem applied to a coinbase, to an unfunded
transaction, and to the funded transaction t1 (fee 10 − 9 = 1). -/
theorem C10_fee_total_witness :
    Transaction.Fee { ID := "cb", Inputs := [], Outputs := [], IsCoinbase := true } c7u = 0
    ∧ c10unfunded.Fee c7u = 0
    ∧ c7t1.Fee c7u = 10 - 9 :=
  ⟨(C10_fee_total _ c7u).2.1 rfl,
   (C10_fee_total c10unfunded c7u).2.2.1 rfl (by decide),
   ((C10_fee_total c7t1 c7u).2.2.2 10 rfl (by decide)).2 (by decide)⟩

/-! ## Abstracted cryptography

secp256k1/ECDSA parsing and verification (btcec) and the address
derivation base58check(RIPEMD160(SHA256(pubkey))) affect no verified
property, so they are abstracted as an environment every validator takes
as a parameter; all theorems hold for every environment. -/

/-- The cryptographic operations the validators depend on. -/
structure CryptoEnv where
  pubKeyToAddress : List Nat → String
  parsePubKey : List Nat → Bool
  parseDERSignature : List Nat → Bool
  verify : List Nat → List Nat → List Nat → Bool

/-- An environment in which every signature parses and verifies, used to
instantiate counterexamples and witnesses. -/
def trivialEnv : CryptoEnv :=
  { pubKeyToAddress := fun _ => ""
    parsePubKey := fun _ => true
    parseDERSignature := fun _ => true
    verify := fun _ _ _ => true }

/-! ## Signature and block verification (blockchain package) -/

/-- The per-input loop of Transaction.Verify (transaction.go lines
89-120). -/
def txVerifyLoop (env : CryptoEnv) (tx : Transaction) :
    Nat → List TxInput → Bool
  | _, [] => true
  | i, inp :: rest =>
    match hexDecode inp.Sig with
    | none => false
    | some sigB =>
      if !env.parseDERSignature sigB then false
      else
        match hexDecode inp.PubKey with
        | none => false
        | some pubB =>
          if !env.parsePubKey pubB then false
          else if !env.verify sigB (sha256 (tx.IDForSig i)) pubB then false
          else txVerifyLoop env tx (i + 1) rest

/-- Transaction.Verify (transaction.go lines 84-123): a coinbase is always
valid; otherwise every input's DER signature must verify over the
signing digest under the input's public key. -/
def Transaction.Verify (env : CryptoEnv) (tx : Transaction) : Bool :=
  if tx.IsCoinbase then true
  else txVerifyLoop env tx 0 tx.Inputs

/-- Block.Verify (block.go lines 127-150): parent linkage when a parent is
given, proof of work against the block's Target field, and per-transaction
signature checks.  The stored Merkle root is never compared with the
recomputed one. -/
def Block.Verify (env : CryptoEnv) (b : Block) (prev : Option Block) : Bool :=
  (match prev with
   | some p => decide (b.PrevHash = p.Hash) && decide (b.Height = p.Height + 1)
   | none => true)
  && hashMeetsTarget b.CalcHash b.Target
  && b.Transactions.all fun tx => Transaction.Verify env tx

/-! ## UTXO mutation (mycoin/blockchain/utxo.go), with the shared store -/

/-- blockchain.NewUTXOSet (utxo.go lines 26-32). -/
def NewUTXOSet : UTXOSet :=
  { Set := [], AddrIndex := [] }

/-- The output loop of UTXOSet.Add (utxo.go lines 52-91): indexes every
output under (txid, i), deduplicates the address index, and persists each
entry to the "utxo" bucket of the shared store. -/
def utxoAddLoop (txID : String) : UTXOSet → DB → Nat → List TxOutput →
    UTXOSet × DB
  | u, db, _, [] => (u, db)
  | u, db, i, out :: rest =>
    let key := utxoKey txID (i : Int)
    let utxo : UTXO := { TxID := txID, Index := (i : Int), Amount := out.Amount, To := out.To }
    let set' := mapPut u.Set key utxo
    let keys := (mapGet u.AddrIndex out.To).getD []
    let addr' :=
      if keys.contains key then u.AddrIndex
      else mapPut u.AddrIndex out.To (keys ++ [key])
    utxoAddLoop txID { Set := set', AddrIndex := addr' }
      (dbPut db ("utxo") key (Bytes.utxo utxo)) (i + 1) rest

/-- UTXOSet.Add (utxo.go lines 52-91). -/
def UTXOSet.Add (u : UTXOSet) (db : DB) (tx : Transaction) : UTXOSet × DB :=
  utxoAddLoop tx.ID u db 0 tx.Outputs

/-- Removal of the first occurrence of a key from an address-index slice
(the inner loop of UTXOSet.Spend, utxo.go lines 138-144). -/
def removeFirst : List String → String → List String
  | [], _ => []
  | k :: rest, key => if k = key then rest else k :: removeFirst rest key

/-- The input loop of UTXOSet.Spend (utxo.go lines 108-145).  An error
return leaves the deletions already performed in place, as the Go loop
does. -/
def utxoSpendLoop (env : CryptoEnv) : UTXOSet → DB → List TxInput →
    Bool × UTXOSet × DB
  | u, db, [] => (true, u, db)
  | u, db, inp :: rest =>
    let key := utxoKey inp.TxID inp.Index
    match mapGet u.Set key with
    | none => (false, u, db)
    | some utxo =>
      match hexDecode inp.PubKey with
      | none => (false, u, db)
      | some pubB =>
        let addr := env.pubKeyToAddress pubB
        if utxo.To ≠ addr then (false, u, db)
        else
          let keys := (mapGet u.AddrIndex addr).getD []
          let addrIndex' :=
            if keys.contains key then mapPut u.AddrIndex addr (removeFirst keys key)
            else u.AddrIndex
          utxoSpendLoop env
            { Set := mapDel u.Set key, AddrIndex := addrIndex' }
            (dbDelete db ("utxo") key) rest

/-- UTXOSet.Spend (utxo.go lines 104-147): a no-op success for coinbase
transactions, otherwise the input loop. -/
def UTXOSet.Spend (u : UTXOSet) (env : CryptoEnv) (db : DB)
    (tx : Transaction) : Bool × UTXOSet × DB :=
  if tx.IsCoinbase then (true, u, db)
  else utxoSpendLoop env u db tx.Inputs

/-- UTXOSet.Clone (utxo.go lines 92-101): copies both maps; the Go clone
keeps the same BoltDB pointer, which the explicit store threading makes
visible. -/
def UTXOSet.Clone (u : UTXOSet) : UTXOSet :=
  { Set := u.Set, AddrIndex := u.AddrIndex }

/-! ## The block validator (mycoin/node/verify.go) -/

/-- The input loop of node.VerifyTx (verify.go lines 67-110), returning the
accumulated input total, or `none` when a check fails. -/
def verifyTxLoop (env : CryptoEnv) (tx : Transaction) (utxoSet : UTXOSet) :
    Nat → Int → List TxInput → Option Int
  | _, acc, [] => some acc
  | i, acc, inp :: rest =>
    match mapGet utxoSet.Set (utxoKey inp.TxID inp.Index) with
    | none => none
    | some utxo =>
      match hexDecode inp.PubKey with
      | none => none
      | some pubB =>
        if env.pubKeyToAddress pubB ≠ utxo.To then none
        else
          match hexDecode inp.Sig with
          | none => none
          | some sigB =>
            if !env.parseDERSignature sigB then none
            else if !env.parsePubKey pubB then none
            else if !env.verify sigB (sha256 (tx.IDForSig i)) pubB then none
            else verifyTxLoop env tx utxoSet (i + 1) (acc + utxo.Amount) rest

/-- node.VerifyTx (verify.go lines 59-123): a coinbase is always valid;
otherwise every input must exist in the given UTXO set, belong to the
input's public key, and carry a valid signature, and the input total must
cover the output total. -/
def VerifyTx (env : CryptoEnv) (tx : Transaction) (utxoSet : UTXOSet) :
    Bool :=
  if tx.IsCoinbase then true
  else
    match verifyTxLoop env tx utxoSet 0 0 tx.Inputs with
    | none => false
    | some totalIn => decide (outputSum tx ≤ totalIn)

/-- The transaction loop of VerifyBlockWithUTXO (verify.go lines 35-53)
over the non-coinbase transactions: validate against the running clone,
spend, and add. -/
def verifyBlockLoop (env : CryptoEnv) : UTXOSet → DB → List Transaction →
    Bool × DB
  | _, db, [] => (true, db)
  | tmp, db, tx :: rest =>
    if !VerifyTx env tx tmp then (false, db)
    else
      match tmp.Spend env db tx with
      | (false, _, db1) => (false, db1)
      | (true, tmp1, db1) =>
        match tmp1.Add db1 tx with
        | (tmp2, db2) => verifyBlockLoop env tmp2 db2 rest

/-- node.VerifyBlockWithUTXO (verify.go lines 15-56): header and signature
checks via Block.Verify, the coinbase-first check, then the per-transaction
loop on a clone of the UTXO set.  The clone shares the persistent store,
so its "utxo"-bucket writes are visible in the returned store.  Note: no
check bounds the coinbase output amount, counts coinbase transactions
beyond index 0, or compares the Merkle root. -/
def VerifyBlockWithUTXO (env : CryptoEnv) (block : Block)
    (parent : Option Block) (utxo : UTXOSet) (db : DB) : Bool × DB :=
  if !Block.Verify env block parent then (false, db)
  else
    let tmp := utxo.Clone
    match block.Transactions with
    | [] => (false, db)
    | t0 :: rest =>
      if !t0.IsCoinbase then (false, db)
      else
        match tmp.Add db t0 with
        | (tmp1, db1) => verifyBlockLoop env tmp1 db1 rest

/-! ## Claims C1 and C2: what the block validator does not check -/

/-- Parent block for the C1/C2 failing inputs. -/
def c1parent : Block :=
  { Height := 0, PrevHash := List.replicate 32 0, Timestamp := 1700000000,
    Nonce := 0, Target := 2 ^ 256, MerkleRoot := [0], Transactions := [],
    Miner := "", Reward := 100, Hash := [1], Bits := 553713664 }

/-- A coinbase paying 1000000 although the node reward is 100 and the block
carries no fee-paying transactions. -/
def c1coinbase : Transaction :=
  { ID := "aa",
    Inputs := [{ TxID := "", Index := -1, Sig := "g", PubKey := "Coinbase" }],
    Outputs := [{ Amount := 1000000, To := "attacker" }], IsCoinbase := true }

/-- A second coinbase, placed at index 1 of the two-coinbase block. -/
def c1coinbase2 : Transaction :=
  { ID := "bb",
    Inputs := [{ TxID := "", Index := -1, Sig := "h", PubKey := "Coinbase" }],
    Outputs := [{ Amount := 999, To := "attacker" }], IsCoinbase := true }

/-- The C1 failing block: a single excessive coinbase.  Bits 553713664
(exponent 33, mantissa 0x010000) decodes to target 2^256, which every hash
satisfies. -/
def c1block : Block :=
  { Height := 1, PrevHash := [1], Timestamp := 1700000001, Nonce := 0,
    Target := 2 ^ 256, MerkleRoot := [0], Transactions := [c1coinbase],
    Miner := "", Reward := 100, Hash := [2], Bits := 553713664 }

/-- A variant carrying two coinbase transactions. -/
def c1blockTwo : Block :=
  { Height := 1, PrevHash := [1], Timestamp := 1700000001, Nonce := 0,
    Target := 2 ^ 256, MerkleRoot := [0],
    Transactions := [c1coinbase, c1coinbase2],
    Miner := "", Reward := 100, Hash := [3], Bits := 553713664 }

/-- C1: VerifyBlockWithUTXO accepts a block whose only coinbase pays
1000000 against a reward of 100 with no fees, and also accepts a block
containing a second coinbase at index 1 (VerifyTx and Spend treat any
coinbase as trivially valid).  The validator never bounds the coinbase
output amount by reward + fees and never enforces coinbase uniqueness. -/
theorem C1_validator_accepts_excess_coinbase :
    (VerifyBlockWithUTXO trivialEnv c1block (some c1parent) NewUTXOSet []).1
        = true
    ∧ c1block.Transactions.map (fun t => t.IsCoinbase) = [true]
    ∧ outputSum c1coinbase = 1000000
    ∧ c1block.Reward = 100
    ∧ (VerifyBlockWithUTXO trivialEnv c1blockTwo (some c1parent) NewUTXOSet
        []).1 = true
    ∧ c1blockTwo.Transactions.map (fun t => t.IsCoinbase) = [true, true] := by
  refine ⟨by decide, by decide, by decide, by decide, by decide, by decide⟩

/-- The C2 failing block transaction: its header Merkle root [222, 173]
differs from the root recomputed over its transaction IDs, yet both
Block.Verify and VerifyBlockWithUTXO accept the block — neither recomputes
the Merkle root. -/
def c2tx : Transaction :=
  { ID := "ab",
    Inputs := [{ TxID := "", Index := -1, Sig := "g", PubKey := "Coinbase" }],
    Outputs := [{ Amount := 100, To := "m" }], IsCoinbase := true }

/-- The C2 failing block body. -/
def c2block : Block :=
  { Height := 1, PrevHash := [1], Timestamp := 1700000001, Nonce := 0,
    Target := 2 ^ 256, MerkleRoot := [222, 173], Transactions := [c2tx],
    Miner := "", Reward := 100, Hash := [4], Bits := 553713664 }

/-- C2: block validation accepts a block whose stored Merkle root differs
from the recomputed root: neither Block.Verify nor VerifyBlockWithUTXO
compares MerkleRoot with ComputeMerkleRoot. -/
theorem C2_validator_ignores_merkle_root :
    Block.Verify trivialEnv c2block (some c1parent) = true
    ∧ (VerifyBlockWithUTXO trivialEnv c2block (some c1parent) NewUTXOSet
        []).1 = true
    ∧ c2block.MerkleRoot ≠ ComputeMerkleRoot c2block.Transactions := by
  refine ⟨by decide, by decide, by decide⟩

/-! ## The node (mycoin/node/node.go, mycoin/node/consensus.go)

The Go Node aliases parts of its state through pointers: `Best` and
`BlockIndex.Parent`/`Children` point into the `Blocks` map, whose entries
are keyed by their unique hash-hex string.  The model resolves pointers
through the map: `Best` holds the tip's hash, an entry's parent is the
entry stored under its `PrevHash`, and `Children` lists child hashes.
Fields the embedded functions never read (MiningAddress, Miner,
Broadcaster, MinerResetChan, the fine-grained sync flags) are omitted. -/

/-- Go struct node.BlockIndex.  `CumWork` is the persisted hex rendering of
`CumWorkInt`. -/
structure BlockIndex where
  Hash : String
  PrevHash : String
  Height : Nat
  Timestamp : Int
  Bits : Nat
  CumWork : String
  CumWorkInt : Int
  Block : Option Block
  Children : List String
  deriving DecidableEq, Repr

/-- Go struct node.Node (node.go lines 24-54). -/
structure Node where
  Chain : List Block
  Mempool : Mempool
  UTXO : UTXOSet
  Blocks : List (String × BlockIndex)
  Best : String
  Orphans : List (String × List Block)
  Mode : String
  Target : Int
  Reward : Int
  IsSyncing : Bool
  DB : DB
  deriving DecidableEq, Repr

/-- node.DifficultyInterval (consensus.go line 10).  connectBlock names the
constant through the blockchain package, whose source is not in the tree;
the spec describes a single retarget interval, identifying the two. -/
def DifficultyInterval : Nat := 10

/-- node.TargetSpacing (consensus.go line 11). -/
def TargetSpacing : Int := 1

/-- node.IntervalTimespan (consensus.go line 12). -/
def IntervalTimespan : Int := (DifficultyInterval : Int) * TargetSpacing

/-- node.computeWork (node.go lines 86-101).  Division of non-negative
big integers; the nil-target guard reads as the non-positive case. -/
def computeWork (target : Int) : Int :=
  if target ≤ 0 then 1
  else
    let work := (2 ^ 256 : Int) / (target + 1)
    if work = 0 then 1 else work

/-- Hex digits of a natural number, most significant first (fuel-based so
concrete values kernel-reduce). -/
def natHexDigits : Nat → Nat → List Char
  | 0, _ => []
  | fuel + 1, n =>
    if n = 0 then [] else natHexDigits fuel (n / 16) ++ [hexDigit (n % 16)]

/-- big.Int.Text(16): minimal lowercase hex, "0" for zero, a "-" sign for
negatives. -/
def intText16 (i : Int) : String :=
  if i = 0 then "0"
  else if i < 0 then "-" ++ String.mk (natHexDigits i.natAbs i.natAbs)
  else String.mk (natHexDigits i.toNat i.toNat)

/-- The `for first.Height > firstHeight` walk of retargetDifficulty
(consensus.go lines 19-22), parent links resolved through the index;
`none` when a link is missing (the Go loop dereferences the nil parent on
its next condition check). -/
def walkToHeight (blocks : List (String × BlockIndex)) :
    Nat → BlockIndex → Nat → Option BlockIndex
  | 0, _, _ => none
  | fuel + 1, cur, firstHeight =>
    if cur.Height > firstHeight then
      match mapGet blocks cur.PrevHash with
      | none => none
      | some p => walkToHeight blocks fuel p firstHeight
    else some cur

/-- node.retargetDifficulty (consensus.go lines 15-63).  `firstHeight`
is computed in uint64 arithmetic (it wraps below height 9); big.Int.Div
is Euclidean division, matching Int division, and the timespan clamp
divides int64 values, which truncate toward zero.  `none` models the
panics: a missing parent link on the walk, or a header-only entry whose
`Block` body is nil when the timestamps are read. -/
def Node.retargetDifficulty (n : Node) (last : BlockIndex) : Option Int :=
  let firstHeight :=
    (last.Height + 18446744073709551616 - (DifficultyInterval - 1)) %
      18446744073709551616
  match walkToHeight n.Blocks (n.Blocks.length + 1) last firstHeight with
  | none => none
  | some first =>
    match last.Block, first.Block with
    | some lastB, some firstB =>
      let minTimespan := IntervalTimespan.tdiv 4
      let maxTimespan := IntervalTimespan * 4
      let actual0 := lastB.Timestamp - firstB.Timestamp
      let actual1 := if actual0 < minTimespan then minTimespan else actual0
      let actual := if actual1 > maxTimespan then maxTimespan else actual1
      let newTarget := lastB.Target * actual / IntervalTimespan
      let maxTarget : Int := 16 ^ 57 - 1
      some (if newTarget > maxTarget then maxTarget else newTarget)
    | _, _ => none

/-- Step 1 of connectBlock (consensus.go lines 102-117): on a retarget
height the block's Bits must equal the compact encoding of the retargeted
difficulty, otherwise they must equal the parent entry's Bits.  `none`
propagates a retargeting panic. -/
def Node.checkBits (n : Node) (parent : BlockIndex) (block : Block) :
    Option Bool :=
  if (parent.Height + 1) % DifficultyInterval = 0 then
    (n.retargetDifficulty parent).map fun t => BigToCompact t == block.Bits
  else some (block.Bits == parent.Bits)

/-- The per-transaction body shared by updateUTXO and RebuildUTXO: spend
the inputs of a non-coinbase (errors ignored, partial deletions kept),
then add the outputs. -/
def applyTxUTXO (env : CryptoEnv) (acc : UTXOSet × DB) (tx : Transaction) :
    UTXOSet × DB :=
  let acc1 :=
    if tx.IsCoinbase then acc
    else
      let r := acc.1.Spend env acc.2 tx
      (r.2.1, r.2.2)
  acc1.1.Add acc1.2 tx

/-- node.updateUTXO (node.go lines 819-829). -/
def Node.updateUTXO (env : CryptoEnv) (n : Node) (block : Block) : Node :=
  let res := block.Transactions.foldl (applyTxUTXO env) (n.UTXO, n.DB)
  { n with UTXO := res.1, DB := res.2 }

/-- node.RebuildUTXO (node.go lines 638-674): clear the "utxo" bucket and
replay every main-chain block into a fresh in-memory set. -/
def Node.RebuildUTXO (env : CryptoEnv) (n : Node) : Node :=
  let res := n.Chain.foldl
    (fun acc b => b.Transactions.foldl (applyTxUTXO env) acc)
    (NewUTXOSet, dbClearBucket n.DB ("utxo"))
  { n with UTXO := res.1, DB := res.2 }

/-- node.removeConfirmedTxs (consensus.go lines 366-373): for each
non-coinbase transaction, delete its "mempool" mirror and remove it from
the pool (Mempool.Remove deletes the same mirror again, harmlessly). -/
def Node.removeConfirmedTxs (n : Node) (block : Block) : Node :=
  block.Transactions.foldl
    (fun st tx =>
      if tx.IsCoinbase then st
      else
        let db1 := dbDelete st.DB ("mempool") tx.ID
        let r := st.Mempool.Remove db1 tx.ID
        { st with Mempool := r.1, DB := r.2 })
    n

/-- node.indexTransactions (consensus.go lines 339-358): record each
transaction's position under its txid in the "txindex" bucket. -/
def Node.indexTransactions (n : Node) (block : Block) (bi : BlockIndex) :
    Node :=
  { n with
    DB := block.Transactions.enum.foldl
      (fun db p => dbPut db ("txindex") p.2.ID
        (Bytes.txidx
          { BlockHash := hexEncode block.Hash
            Height := bi.Height
            TxOffset := p.1
            Pruned := false }))
      n.DB }

/-- node.removeTxIndex (consensus.go lines 360-364). -/
def Node.removeTxIndex (n : Node) (block : Block) : Node :=
  { n with
    DB := block.Transactions.foldl
      (fun db tx => dbDelete db ("txindex") tx.ID) n.DB }

/-- The two height-levelling loops of reorgTo (consensus.go lines
287-301): follow parent links until the entry's height is at most `h`;
`none` models the nil-parent returns. -/
def lowerToHeight (blocks : List (String × BlockIndex)) :
    Nat → BlockIndex → Nat → Option BlockIndex
  | 0, _, _ => none
  | fuel + 1, x, h =>
    if x.Height > h then
      match mapGet blocks x.PrevHash with
      | none => none
      | some x1 => lowerToHeight blocks fuel x1 h
    else some x

/-- The joint walk of reorgTo (consensus.go lines 303-312): step both
sides until they meet (entries are keyed by their unique hash, so pointer
equality is hash equality) or a parent link is missing. -/
def walkBothBack (blocks : List (String × BlockIndex)) :
    Nat → BlockIndex → BlockIndex → Option BlockIndex
  | 0, _, _ => none
  | fuel + 1, a, b =>
    if a.Hash = b.Hash then some a
    else
      match mapGet blocks a.PrevHash, mapGet blocks b.PrevHash with
      | some a1, some b1 => walkBothBack blocks fuel a1 b1
      | _, _ => none

/-- The path-collection loops of reorgTo (consensus.go lines 316-329):
entries from `cur` down to (excluding) the stop hash, truncated where a
parent link is missing. -/
def pathTo (blocks : List (String × BlockIndex)) :
    Nat → BlockIndex → String → List BlockIndex
  | 0, _, _ => []
  | fuel + 1, cur, stop =>
    if cur.Hash = stop then []
    else
      cur ::
        (match mapGet blocks cur.PrevHash with
         | none => []
         | some p => pathTo blocks fuel p stop)

/-- node.reorgTo (consensus.go lines 276-337, the nil-safe version): find
the common ancestor of the old and new tips and return the disconnect
path (tip-first) and the connect path (ancestor-first).  Any broken link
yields the empty pair, as the Go early returns do.  This version does not
move `Best`. -/
def Node.reorgTo (n : Node) (oldTip newTip : BlockIndex) :
    List BlockIndex × List BlockIndex :=
  let fuel := n.Blocks.length + 1
  match lowerToHeight n.Blocks fuel oldTip newTip.Height with
  | none => ([], [])
  | some a =>
    match lowerToHeight n.Blocks fuel newTip a.Height with
    | none => ([], [])
    | some b =>
      match walkBothBack n.Blocks fuel a b with
      | none => ([], [])
      | some anc =>
        (pathTo n.Blocks fuel oldTip anc.Hash,
         (pathTo n.Blocks fuel newTip anc.Hash).reverse)

/-- The tip-to-genesis walk of rebuildChain (node.go lines 325-332):
collect block bodies oldest-first, skipping header-only entries. -/
def walkChainBodies (blocks : List (String × BlockIndex)) :
    Nat → Option BlockIndex → List Block
  | 0, _ => []
  | _ + 1, none => []
  | fuel + 1, some cur =>
    walkChainBodies blocks fuel (mapGet blocks cur.PrevHash) ++
      (match cur.Block with
       | some b => [b]
       | none => [])

/-- The confirmedInNewChain map of rebuildChain (node.go lines 339-346):
every transaction id appearing in a new-branch block body. -/
def confirmedIds (newChain : List BlockIndex) : List (String × Bool) :=
  newChain.foldl
    (fun acc bi =>
      match bi.Block with
      | some b => b.Transactions.foldl (fun a tx => mapPut a tx.ID true) acc
      | none => acc)
    []

/-- The txsToRestore map of rebuildChain (node.go lines 349-367):
old-branch non-coinbase transactions the new branch did not confirm,
overlaid with the resident transactions the new branch did not confirm. -/
def restoredTxs (oldChain newChain : List BlockIndex) (mp : Mempool) :
    List (String × Bytes) :=
  let confirmed := confirmedIds newChain
  let restore0 : List (String × Bytes) := oldChain.foldl
    (fun acc bi =>
      match bi.Block with
      | some b =>
        b.Transactions.foldl
          (fun a tx =>
            if !tx.IsCoinbase && (mapGet confirmed tx.ID).isNone then
              mapPut a tx.ID tx.Serialize
            else a)
          acc
      | none => acc)
    []
  mp.GetAll.foldl
    (fun a p => if (mapGet confirmed p.1).isNone then mapPut a p.1 p.2 else a)
    restore0

/-- node.rebuildChain (node.go lines 323-389): rebuild the main-chain
array from the new tip, make the new tip best, refill the cleared mempool
with the restored transactions, and move the transaction index from the
old branch to the new.  The Go code fills the rebuilt pool by map
iteration; the model keeps first-insertion order, which leaves the map
contents unchanged. -/
def Node.rebuildChain (n : Node) (oldChain newChain : List BlockIndex)
    (newTip : BlockIndex) : Node :=
  let fullChain := walkChainBodies n.Blocks (n.Blocks.length + 1) (some newTip)
  let mp := { n.Mempool.Clear with
              Txs := restoredTxs oldChain newChain n.Mempool }
  let n1 := { n with Chain := fullChain, Best := newTip.Hash, Mempool := mp }
  let n2 := oldChain.foldl
    (fun st bi =>
      match bi.Block with
      | some b => st.removeTxIndex b
      | none => st)
    n1
  newChain.foldl
    (fun st bi =>
      match bi.Block with
      | some b => st.indexTransactions b bi
      | none => st)
    n2

/-- node.AddOrphan (node.go lines 686-689). -/
def addOrphanList (orphans : List (String × List Block)) (blk : Block) :
    List (String × List Block) :=
  let ph := hexEncode blk.PrevHash
  mapPut orphans ph ((mapGet orphans ph).getD [] ++ [blk])

/-- Step 5 of connectBlock (consensus.go lines 192-254): chain selection
over the already-updated node n1.  The selection logging dereferences
n.Best unconditionally, so a missing best entry is a modelled panic
(`none`).  Extend when the parent is the tip; reorganize when the new
entry's cumulative work strictly exceeds the tip's; otherwise the entry
is a side-chain record and nothing further changes.  When the chain
switched, the "meta"/"best" pointer is persisted. -/
def connectSelect (env : CryptoEnv) (n1 : Node) (block : Block)
    (parent bi : BlockIndex) (cumWork : Int) : Option (Bool × Node) :=
  match mapGet n1.Blocks n1.Best with
  | none => none
  | some best =>
    if parent.Hash = n1.Best then
      let n2 := { n1 with Best := bi.Hash, Chain := n1.Chain ++ [block] }
      let n3 := (n2.updateUTXO env block).removeConfirmedTxs block
      some (true,
        { n3 with DB := dbPut n3.DB ("meta") ("best") (Bytes.str bi.Hash) })
    else if cumWork > best.CumWorkInt then
      let pr := n1.reorgTo best bi
      let n3 := (n1.rebuildChain pr.1 pr.2 bi).RebuildUTXO env
      some (true,
        { n3 with DB := dbPut n3.DB ("meta") ("best") (Bytes.str n3.Best) })
    else some (true, n1)

/-- Case B of step 3 of connectBlock (consensus.go lines 154-169): the
fresh index entry for a block arriving with no prior header entry. -/
def freshEntry (block : Block) (parent : BlockIndex) (cumWork : Int) :
    BlockIndex :=
  { Hash := hexEncode block.Hash
    PrevHash := parent.Hash
    Height := parent.Height + 1
    Timestamp := block.Timestamp
    Bits := block.Bits
    CumWork := intText16 cumWork
    CumWorkInt := cumWork
    Block := some block
    Children := [] }

/-- Steps 1-5 of connectBlock (consensus.go lines 96-254): difficulty
check, block validation when not syncing, index entry creation or body
attachment, child linking, persistence of the block body and index entry,
then chain selection.  Updating an existing entry keeps its stored
PrevHash, as the Go code does (only the Parent pointer is reassigned).
`none` models a retargeting panic.  Step 6 (attachOrphans) recurses into
AddBlock and lives in `nodeRun`. -/
def connectMain (env : CryptoEnv) (n : Node) (block : Block)
    (parent : BlockIndex) : Option (Bool × Node) :=
  match n.checkBits parent block with
  | none => none
  | some false => some (false, n)
  | some true =>
    let cumWork := parent.CumWorkInt + computeWork block.Target
    let vres :=
      if n.IsSyncing then (true, n.DB)
      else VerifyBlockWithUTXO env block parent.Block n.UTXO n.DB
    if !vres.1 then some (false, { n with DB := vres.2 })
    else
      let n0 := { n with DB := vres.2 }
      let hashHex := hexEncode block.Hash
      let bi :=
        match mapGet n0.Blocks hashHex with
        | some bi0 =>
          { bi0 with
            Block := some block
            Bits := block.Bits
            Timestamp := block.Timestamp
            CumWorkInt := cumWork
            CumWork := intText16 cumWork }
        | none => freshEntry block parent cumWork
      let blocks1 := mapPut n0.Blocks hashHex bi
      let blocks2 :=
        match mapGet blocks1 parent.Hash with
        | some pe =>
          if pe.Children.contains hashHex then blocks1
          else
            mapPut blocks1 parent.Hash
              { pe with Children := pe.Children ++ [hashHex] }
        | none => blocks1
      let db2 := dbPut (dbPut n0.DB ("blocks") hashHex block.Serialize)
        ("index") hashHex
        (Bytes.index
          { hash := bi.Hash
            height := bi.Height
            cumwork := bi.CumWork
            prevhash := bi.PrevHash
            timestamp := bi.Timestamp
            bits := bi.Bits })
      let n1 := { n0 with Blocks := blocks2, DB := db2 }
      connectSelect env n1 block parent bi cumWork

/-- The call graph AddBlock → connectBlock → attachOrphans → AddBlock, run
on shared fuel so concrete executions kernel-reduce.  `addB` enters
Node.AddBlock (node.go lines 259-318); `addB2` is its body after the
deduplication step; `connectB` is connectBlock with its final
attachOrphans; `attach` is attachOrphans (consensus.go lines 263-273) and
`orphanL` its loop over the popped orphan list. -/
inductive NodeCall where
  | addB (block : Block)
  | addB2 (block : Block)
  | connectB (block : Block) (parent : BlockIndex)
  | attach (parentHash : String)
  | orphanL (blks : List Block)

/-- One interpreter for the mutually recursive node entry points; `none`
is fuel exhaustion or a modelled panic.  In `addB`, a body arriving for a
header-only index entry is attached before any validation; the attachment
persists even when the parent is missing or connectBlock rejects. -/
def nodeRun (env : CryptoEnv) : Nat → Node → NodeCall → Option (Bool × Node)
  | 0, _, _ => none
  | fuel + 1, n, .addB block =>
    match mapGet n.Blocks (hexEncode block.Hash) with
    | some bi =>
      match bi.Block with
      | some _ => some (true, n)
      | none =>
        nodeRun env fuel
          { n with
            Blocks := mapPut n.Blocks (hexEncode block.Hash)
              { bi with Block := some block } }
          (.addB2 block)
    | none => nodeRun env fuel n (.addB2 block)
  | fuel + 1, n, .addB2 block =>
    match mapGet n.Blocks (hexEncode block.PrevHash) with
    | none => some (false, { n with Orphans := addOrphanList n.Orphans block })
    | some parentIdx =>
      match nodeRun env fuel n (.connectB block parentIdx) with
      | none => none
      | some (false, n1) => some (false, n1)
      | some (true, n1) =>
        match nodeRun env fuel (n1.removeConfirmedTxs block)
            (.attach (hexEncode block.Hash)) with
        | none => none
        | some (_, n2) => some (true, n2)
  | fuel + 1, n, .connectB block parent =>
    match connectMain env n block parent with
    | none => none
    | some (false, n1) => some (false, n1)
    | some (true, n1) =>
      match nodeRun env fuel n1 (.attach (hexEncode block.Hash)) with
      | none => none
      | some (_, n2) => some (true, n2)
  | fuel + 1, n, .attach parentHash =>
    match mapGet n.Orphans parentHash with
    | none => some (true, n)
    | some blks =>
      if blks.isEmpty then some (true, n)
      else
        nodeRun env fuel { n with Orphans := mapDel n.Orphans parentHash }
          (.orphanL blks)
  | _ + 1, n, .orphanL [] => some (true, n)
  | fuel + 1, n, .orphanL (b :: rest) =>
    match nodeRun env fuel n (.addB b) with
    | none => none
    | some (_, n1) => nodeRun env fuel n1 (.orphanL rest)

/-- Node.AddBlock (node.go lines 259-318), under the given recursion
fuel. -/
def Node.AddBlock (env : CryptoEnv) (fuel : Nat) (n : Node)
    (block : Block) : Option (Bool × Node) :=
  nodeRun env fuel n (.addB block)

/-- Node.connectBlock (consensus.go lines 96-262), under the given
recursion fuel. -/
def Node.connectBlock (env : CryptoEnv) (fuel : Nat) (n : Node)
    (block : Block) (parent : BlockIndex) : Option (Bool × Node) :=
  nodeRun env fuel n (.connectB block parent)

/-! ## Claim C4: state changes surviving a rejected block -/

/-- Genesis block for the C4 scenario. -/
def c4genesis : Block :=
  { Height := 0, PrevHash := List.replicate 32 0, Timestamp := 1700000000,
    Nonce := 0, Target := 2 ^ 256, MerkleRoot := [0], Transactions := [],
    Miner := "", Reward := 100, Hash := [1], Bits := 553713664 }

/-- Index entry for the genesis block (key "01" = hex of its hash). -/
def c4genIdx : BlockIndex :=
  { Hash := "01", PrevHash := "", Height := 0, Timestamp := 1700000000,
    Bits := 553713664, CumWork := "1", CumWorkInt := 1,
    Block := some c4genesis, Children := [] }

/-- Coinbase of the failing block; its output is the first "utxo"-bucket
write of the validation sandbox. -/
def c4cb : Transaction :=
  { ID := "cb",
    Inputs := [{ TxID := "", Index := -1, Sig := "aa", PubKey := "bb" }],
    Outputs := [{ Amount := 100, To := "miner" }], IsCoinbase := true }

/-- A transaction spending an outpoint that is not in the UTXO set: the
missing-input failure of VerifyTx rejects the block. -/
def c4bad : Transaction :=
  { ID := "dd",
    Inputs := [{ TxID := "ee", Index := 0, Sig := "00", PubKey := "00" }],
    Outputs := [{ Amount := 5, To := "x" }], IsCoinbase := false }

/-- The failing block: correct parent linkage, trivial proof of work
(target 2^256) and matching Bits, but an invalid second transaction. -/
def c4block : Block :=
  { Height := 1, PrevHash := [1], Timestamp := 1700000001, Nonce := 0,
    Target := 2 ^ 256, MerkleRoot := [0], Transactions := [c4cb, c4bad],
    Miner := "", Reward := 100, Hash := [2], Bits := 553713664 }

/-- A pre-existing header-only index entry for the failing block, as
headers-first sync creates (key "02" = hex of the block's hash). -/
def c4hdrIdx : BlockIndex :=
  { Hash := "02", PrevHash := "01", Height := 1, Timestamp := 1700000001,
    Bits := 553713664, CumWork := "2", CumWorkInt := 2, Block := none,
    Children := [] }

/-- The node before the call: genesis tip, empty UTXO set and store, the
header-only entry for the incoming block already indexed. -/
def c4node : Node :=
  { Chain := [c4genesis]
    Mempool := { Txs := [], Spent := [], Parents := [], Children := [],
                 MaxTx := 100 }
    UTXO := NewUTXOSet
    Blocks := [("01", c4genIdx), ("02", c4hdrIdx)]
    Best := "01"
    Orphans := []
    Mode := "full"
    Target := 2 ^ 256
    Reward := 100
    IsSyncing := false
    DB := [] }

/-- C4: AddBlock rejects the invalid block (missing input), yet the node
is not left unchanged: the block body has been attached to the
pre-existing header-only index entry before validation ran (node.go lines
271-274), and the validation sandbox's clone of the UTXO set shares the
persistent store, so the rejected block's coinbase output sits in the
"utxo" bucket after the call (utxo.go Add, called from
VerifyBlockWithUTXO on the clone). -/
theorem C4_validation_failure_mutates_state :
    (Node.AddBlock trivialEnv 9 c4node c4block).map Prod.fst = some false
    ∧ (mapGet c4node.Blocks ("02")).map (fun bi => bi.Block) = some none
    ∧ (Node.AddBlock trivialEnv 9 c4node c4block).map
        (fun r => (mapGet r.2.Blocks ("02")).map fun bi => bi.Block)
      = some (some (some c4block))
    ∧ dbGet c4node.DB ("utxo") ("cb_0") = none
    ∧ (Node.AddBlock trivialEnv 9 c4node c4block).map
        (fun r => dbGet r.2.DB ("utxo") ("cb_0"))
      = some (some (Bytes.utxo
          { TxID := "cb", Index := 0, Amount := 100, To := "miner" })) := by
  refine ⟨by decide, by decide, by decide, by decide, by decide⟩

/-! ## Store-independence and frame lemmas for the node operations

The in-memory components of the UTXO and mempool operations do not
depend on the store threaded through them, and each fold writes only
its own bucket and fields. -/

theorem dbGet_dbPut_self (db : DB) (b k : String) (v : Bytes) :
    dbGet (dbPut db b k v) b k = some v :=
  mapGet_mapPut_self db (b, k) v

theorem dbGet_dbPut_ne (db : DB) (b k b2 k2 : String) (v : Bytes)
    (h : (b2, k2) ≠ (b, k)) :
    dbGet (dbPut db b k v) b2 k2 = dbGet db b2 k2 :=
  mapGet_mapPut_ne db (b, k) (b2, k2) v h

theorem dbGet_dbDelete_ne (db : DB) (b k b2 k2 : String)
    (h : (b2, k2) ≠ (b, k)) :
    dbGet (dbDelete db b k) b2 k2 = dbGet db b2 k2 :=
  mapGet_mapDel_ne db (b, k) (b2, k2) h

theorem utxoAddLoop_set_indep (tid : String) :
    ∀ (outs : List TxOutput) (u : UTXOSet) (db db' : DB) (i : Nat),
      (utxoAddLoop tid u db i outs).1 = (utxoAddLoop tid u db' i outs).1
  | [], _, _, _, _ => rfl
  | _ :: rest, u, db, db', i => by
    simp only [utxoAddLoop]
    exact utxoAddLoop_set_indep tid rest _ _ _ _

theorem utxoSpendLoop_indep (env : CryptoEnv) :
    ∀ (ins : List TxInput) (u : UTXOSet) (db db' : DB),
      (utxoSpendLoop env u db ins).1 = (utxoSpendLoop env u db' ins).1
      ∧ (utxoSpendLoop env u db ins).2.1 = (utxoSpendLoop env u db' ins).2.1 := by
  intro ins
  induction ins with
  | nil => intro u db db'; exact ⟨rfl, rfl⟩
  | cons inp rest ih =>
    intro u db db'
    unfold utxoSpendLoop
    dsimp only
    cases mapGet u.Set (utxoKey inp.TxID inp.Index) with
    | none => exact ⟨rfl, rfl⟩
    | some utxo =>
      cases hexDecode inp.PubKey with
      | none => exact ⟨rfl, rfl⟩
      | some pubB =>
        by_cases ht : utxo.To ≠ env.pubKeyToAddress pubB
        · simp [ht]
        · simp only [if_neg ht]
          exact ih _ _ _

theorem utxoSpend_indep (env : CryptoEnv) (tx : Transaction) (u : UTXOSet)
    (db db' : DB) :
    (u.Spend env db tx).1 = (u.Spend env db' tx).1
    ∧ (u.Spend env db tx).2.1 = (u.Spend env db' tx).2.1 := by
  unfold UTXOSet.Spend
  by_cases h : tx.IsCoinbase
  · simp [h]
  · simp only [h, if_neg, Bool.false_eq_true, ite_false]
    exact utxoSpendLoop_indep env tx.Inputs u db db'

theorem applyTxUTXO_fst_indep (env : CryptoEnv) (tx : Transaction)
    (u : UTXOSet) (db db' : DB) :
    (applyTxUTXO env (u, db) tx).1 = (applyTxUTXO env (u, db') tx).1 := by
  unfold applyTxUTXO UTXOSet.Add
  by_cases h : tx.IsCoinbase
  · simp only [h, if_pos]
    exact utxoAddLoop_set_indep tx.ID tx.Outputs u _ _ 0
  · simp only [h, Bool.false_eq_true, ite_false]
    rw [(utxoSpend_indep env tx u db db').2]
    exact utxoAddLoop_set_indep tx.ID tx.Outputs _ _ _ 0

theorem foldApply_fst_indep (env : CryptoEnv) :
    ∀ (txs : List Transaction) (u : UTXOSet) (db db' : DB),
      (txs.foldl (applyTxUTXO env) (u, db)).1
        = (txs.foldl (applyTxUTXO env) (u, db')).1
  | [], _, _, _ => rfl
  | tx :: rest, u, db, db' => by
    simp only [List.foldl]
    rw [← Prod.mk.eta (p := applyTxUTXO env (u, db) tx),
      ← Prod.mk.eta (p := applyTxUTXO env (u, db') tx),
      applyTxUTXO_fst_indep env tx u db db']
    exact foldApply_fst_indep env rest _ _ _

theorem chainApply_fst_indep (env : CryptoEnv) :
    ∀ (bs : List Block) (u : UTXOSet) (db db' : DB),
      (bs.foldl (fun acc b => b.Transactions.foldl (applyTxUTXO env) acc)
          (u, db)).1
        = (bs.foldl (fun acc b => b.Transactions.foldl (applyTxUTXO env) acc)
          (u, db')).1
  | [], _, _, _ => rfl
  | b :: rest, u, db, db' => by
    simp only [List.foldl]
    rw [← Prod.mk.eta (p := b.Transactions.foldl (applyTxUTXO env) (u, db)),
      ← Prod.mk.eta (p := b.Transactions.foldl (applyTxUTXO env) (u, db')),
      foldApply_fst_indep env b.Transactions u db db']
    exact chainApply_fst_indep env rest _ _ _

/-- A fold whose step preserves a projection preserves it overall. -/
theorem foldl_proj_inv {α β γ : Type} (proj : β → γ) (f : β → α → β)
    (h : ∀ st a, proj (f st a) = proj st) :
    ∀ (l : List α) (st : β), proj (l.foldl f st) = proj st
  | [], _ => rfl
  | a :: rest, st => by
    simp only [List.foldl]
    rw [foldl_proj_inv proj f h rest (f st a), h]

/-- The mempool component of removeConfirmedTxs as a pure fold. -/
def mpRemoveConfirmed (txs : List Transaction) (mp : Mempool) : Mempool :=
  txs.foldl
    (fun m tx => if tx.IsCoinbase then m else (m.Remove [] tx.ID).1) mp

/-- The store component of removeConfirmedTxs as a pure fold (the mirror
is deleted twice per transaction, by removeConfirmedTxs itself and by
Mempool.Remove). -/
def dbRemoveConfirmed (txs : List Transaction) (db : DB) : DB :=
  txs.foldl
    (fun d tx =>
      if tx.IsCoinbase then d
      else dbDelete (dbDelete d ("mempool") tx.ID) ("mempool") tx.ID)
    db

theorem removeConfirmedFold_eq :
    ∀ (txs : List Transaction) (n : Node),
      txs.foldl
        (fun st tx =>
          if tx.IsCoinbase then st
          else
            let db1 := dbDelete st.DB ("mempool") tx.ID
            let r := st.Mempool.Remove db1 tx.ID
            { st with Mempool := r.1, DB := r.2 })
        n
      = { n with Mempool := mpRemoveConfirmed txs n.Mempool,
                 DB := dbRemoveConfirmed txs n.DB }
  | [], n => rfl
  | tx :: rest, n => by
    simp only [List.foldl, mpRemoveConfirmed, dbRemoveConfirmed]
    by_cases h : tx.IsCoinbase
    · simp only [h, if_pos]
      exact removeConfirmedFold_eq rest n
    · simp only [h, Bool.false_eq_true, ite_false]
      exact removeConfirmedFold_eq rest _

theorem removeConfirmedTxs_eq (n : Node) (b : Block) :
    n.removeConfirmedTxs b
      = { n with Mempool := mpRemoveConfirmed b.Transactions n.Mempool,
                 DB := dbRemoveConfirmed b.Transactions n.DB } := by
  unfold Node.removeConfirmedTxs
  exact removeConfirmedFold_eq b.Transactions n

theorem rebuildChain_Best (n : Node) (oldc newc : List BlockIndex)
    (tip : BlockIndex) : (n.rebuildChain oldc newc tip).Best = tip.Hash := by
  simp only [Node.rebuildChain]
  exact (foldl_proj_inv Node.Best _
      (fun st bi => by cases bi.Block <;> rfl) _ _).trans
    ((foldl_proj_inv Node.Best _
      (fun st bi => by cases bi.Block <;> rfl) _ _).trans rfl)

theorem rebuildChain_Chain (n : Node) (oldc newc : List BlockIndex)
    (tip : BlockIndex) :
    (n.rebuildChain oldc newc tip).Chain
      = walkChainBodies n.Blocks (n.Blocks.length + 1) (some tip) := by
  simp only [Node.rebuildChain]
  exact (foldl_proj_inv Node.Chain _
      (fun st bi => by cases bi.Block <;> rfl) _ _).trans
    ((foldl_proj_inv Node.Chain _
      (fun st bi => by cases bi.Block <;> rfl) _ _).trans rfl)

theorem rebuildChain_Mempool (n : Node) (oldc newc : List BlockIndex)
    (tip : BlockIndex) :
    (n.rebuildChain oldc newc tip).Mempool
      = { n.Mempool.Clear with Txs := restoredTxs oldc newc n.Mempool } := by
  simp only [Node.rebuildChain]
  exact (foldl_proj_inv Node.Mempool _
      (fun st bi => by cases bi.Block <;> rfl) _ _).trans
    ((foldl_proj_inv Node.Mempool _
      (fun st bi => by cases bi.Block <;> rfl) _ _).trans rfl)

theorem rebuildChain_UTXO (n : Node) (oldc newc : List BlockIndex)
    (tip : BlockIndex) : (n.rebuildChain oldc newc tip).UTXO = n.UTXO := by
  simp only [Node.rebuildChain]
  exact (foldl_proj_inv Node.UTXO _
      (fun st bi => by cases bi.Block <;> rfl) _ _).trans
    ((foldl_proj_inv Node.UTXO _
      (fun st bi => by cases bi.Block <;> rfl) _ _).trans rfl)

theorem rebuildChain_Orphans (n : Node) (oldc newc : List BlockIndex)
    (tip : BlockIndex) :
    (n.rebuildChain oldc newc tip).Orphans = n.Orphans := by
  simp only [Node.rebuildChain]
  exact (foldl_proj_inv Node.Orphans _
      (fun st bi => by cases bi.Block <;> rfl) _ _).trans
    ((foldl_proj_inv Node.Orphans _
      (fun st bi => by cases bi.Block <;> rfl) _ _).trans rfl)

/-! ## Bucket-frame lemmas: each write loop touches only its own bucket -/

theorem dbGet_utxoAddLoop_ne (tid : String) :
    ∀ (outs : List TxOutput) (u : UTXOSet) (db : DB) (i : Nat)
      (b k : String), b ≠ "utxo" →
      dbGet (utxoAddLoop tid u db i outs).2 b k = dbGet db b k
  | [], _, _, _, _, _, _ => rfl
  | _ :: rest, u, db, i, b, k, h => by
    simp only [utxoAddLoop]
    rw [dbGet_utxoAddLoop_ne tid rest _ _ _ _ _ h,
      dbGet_dbPut_ne _ _ _ _ _ _ (fun hc => h (congrArg Prod.fst hc))]

theorem dbGet_utxoSpendLoop_ne (env : CryptoEnv) :
    ∀ (ins : List TxInput) (u : UTXOSet) (db : DB) (b k : String),
      b ≠ "utxo" →
      dbGet (utxoSpendLoop env u db ins).2.2 b k = dbGet db b k := by
  intro ins
  induction ins with
  | nil => intro u db b k h; rfl
  | cons inp rest ih =>
    intro u db b k h
    unfold utxoSpendLoop
    dsimp only
    cases mapGet u.Set (utxoKey inp.TxID inp.Index) with
    | none => rfl
    | some utxo =>
      cases hexDecode inp.PubKey with
      | none => rfl
      | some pubB =>
        by_cases ht : utxo.To ≠ env.pubKeyToAddress pubB
        · simp only [if_pos ht]
        · simp only [if_neg ht]
          rw [ih _ _ _ _ h,
            dbGet_dbDelete_ne _ _ _ _ _ (fun hc => h (congrArg Prod.fst hc))]

theorem dbGet_spend_ne (env : CryptoEnv) (tx : Transaction) (u : UTXOSet)
    (db : DB) (b k : String) (h : b ≠ "utxo") :
    dbGet (u.Spend env db tx).2.2 b k = dbGet db b k := by
  unfold UTXOSet.Spend
  by_cases hc : tx.IsCoinbase
  · simp [hc]
  · simp only [hc, Bool.false_eq_true, ite_false]
    exact dbGet_utxoSpendLoop_ne env tx.Inputs u db b k h

theorem dbGet_applyTx_ne (env : CryptoEnv) (tx : Transaction) (u : UTXOSet)
    (db : DB) (b k : String) (h : b ≠ "utxo") :
    dbGet (applyTxUTXO env (u, db) tx).2 b k = dbGet db b k := by
  unfold applyTxUTXO UTXOSet.Add
  by_cases hc : tx.IsCoinbase
  · simp only [hc, if_pos]
    exact dbGet_utxoAddLoop_ne tx.ID tx.Outputs u db 0 b k h
  · simp only [hc, Bool.false_eq_true, ite_false]
    rw [dbGet_utxoAddLoop_ne tx.ID tx.Outputs _ _ 0 b k h]
    exact dbGet_spend_ne env tx u db b k h

theorem dbGet_foldApply_ne (env : CryptoEnv) :
    ∀ (txs : List Transaction) (u : UTXOSet) (db : DB) (b k : String),
      b ≠ "utxo" →
      dbGet (txs.foldl (applyTxUTXO env) (u, db)).2 b k = dbGet db b k
  | [], _, _, _, _, _ => rfl
  | tx :: rest, u, db, b, k, h => by
    simp only [List.foldl]
    rw [← Prod.mk.eta (p := applyTxUTXO env (u, db) tx),
      dbGet_foldApply_ne env rest _ _ _ _ h]
    exact dbGet_applyTx_ne env tx u db b k h

theorem dbGet_dbRemoveConfirmed_ne :
    ∀ (txs : List Transaction) (db : DB) (b k : String), b ≠ "mempool" →
      dbGet (dbRemoveConfirmed txs db) b k = dbGet db b k
  | [], _, _, _, _ => rfl
  | tx :: rest, db, b, k, h => by
    simp only [dbRemoveConfirmed, List.foldl]
    by_cases hc : tx.IsCoinbase
    · simp only [hc, if_pos]
      exact dbGet_dbRemoveConfirmed_ne rest db b k h
    · simp only [hc, Bool.false_eq_true, ite_false]
      rw [show (rest.foldl
          (fun d tx =>
            if tx.IsCoinbase then d
            else dbDelete (dbDelete d ("mempool") tx.ID) ("mempool") tx.ID)
          (dbDelete (dbDelete db ("mempool") tx.ID) ("mempool") tx.ID))
        = dbRemoveConfirmed rest
            (dbDelete (dbDelete db ("mempool") tx.ID) ("mempool") tx.ID)
        from rfl]
      rw [dbGet_dbRemoveConfirmed_ne rest _ b k h,
        dbGet_dbDelete_ne _ _ _ _ _ (fun hc2 => h (congrArg Prod.fst hc2)),
        dbGet_dbDelete_ne _ _ _ _ _ (fun hc2 => h (congrArg Prod.fst hc2))]

/-! ## The chain-selection trichotomy of connectBlock -/

theorem connectSelect_extend (env : CryptoEnv) (n1 : Node) (block : Block)
    (parent bi best : BlockIndex) (cumWork : Int)
    (hb : mapGet n1.Blocks n1.Best = some best)
    (he : parent.Hash = n1.Best) :
    connectSelect env n1 block parent bi cumWork
      = some (true,
          { n1 with
            Best := bi.Hash
            Chain := n1.Chain ++ [block]
            UTXO := (block.Transactions.foldl (applyTxUTXO env)
              (n1.UTXO, n1.DB)).1
            Mempool := mpRemoveConfirmed block.Transactions n1.Mempool
            DB := dbPut
              (dbRemoveConfirmed block.Transactions
                (block.Transactions.foldl (applyTxUTXO env)
                  (n1.UTXO, n1.DB)).2)
              ("meta") ("best") (Bytes.str bi.Hash) }) := by
  unfold connectSelect
  rw [hb]
  dsimp only
  rw [if_pos he, removeConfirmedTxs_eq]
  rfl

theorem connectSelect_reorg (env : CryptoEnv) (n1 : Node) (block : Block)
    (parent bi best : BlockIndex) (cumWork : Int)
    (hb : mapGet n1.Blocks n1.Best = some best)
    (hne : parent.Hash ≠ n1.Best)
    (hgt : cumWork > best.CumWorkInt) :
    connectSelect env n1 block parent bi cumWork
      = some (true,
          { (n1.rebuildChain (n1.reorgTo best bi).1 (n1.reorgTo best bi).2
              bi).RebuildUTXO env with
            DB := dbPut
              ((n1.rebuildChain (n1.reorgTo best bi).1 (n1.reorgTo best bi).2
                bi).RebuildUTXO env).DB
              ("meta") ("best")
              (Bytes.str ((n1.rebuildChain (n1.reorgTo best bi).1
                (n1.reorgTo best bi).2 bi).RebuildUTXO env).Best) }) := by
  unfold connectSelect
  rw [hb]
  dsimp only
  rw [if_neg hne, if_pos hgt]

theorem connectSelect_side (env : CryptoEnv) (n1 : Node) (block : Block)
    (parent bi best : BlockIndex) (cumWork : Int)
    (hb : mapGet n1.Blocks n1.Best = some best)
    (hne : parent.Hash ≠ n1.Best)
    (hle : ¬cumWork > best.CumWorkInt) :
    connectSelect env n1 block parent bi cumWork = some (true, n1) := by
  unfold connectSelect
  rw [hb]
  dsimp only
  rw [if_neg hne, if_neg hle]

theorem connectMain_eq (env : CryptoEnv) (n : Node) (block : Block)
    (parent pe : BlockIndex) (dbv : DB)
    (hbits : n.checkBits parent block = some true)
    (hsync : n.IsSyncing = false)
    (hval : VerifyBlockWithUTXO env block parent.Block n.UTXO n.DB
      = (true, dbv))
    (hnew : mapGet n.Blocks (hexEncode block.Hash) = none)
    (hpar : mapGet n.Blocks parent.Hash = some pe)
    (hchild : pe.Children.contains (hexEncode block.Hash) = false)
    (hneP : parent.Hash ≠ hexEncode block.Hash) :
    connectMain env n block parent
      = connectSelect env
          { n with
            Blocks := mapPut
              (mapPut n.Blocks (hexEncode block.Hash)
                (freshEntry block parent
                  (parent.CumWorkInt + computeWork block.Target)))
              parent.Hash
              { pe with Children := pe.Children ++ [hexEncode block.Hash] }
            DB := dbPut
              (dbPut dbv ("blocks") (hexEncode block.Hash) block.Serialize)
              ("index") (hexEncode block.Hash)
              (Bytes.index
                { hash := hexEncode block.Hash
                  height := parent.Height + 1
                  cumwork := intText16
                    (parent.CumWorkInt + computeWork block.Target)
                  prevhash := parent.Hash
                  timestamp := block.Timestamp
                  bits := block.Bits }) }
          block parent
          (freshEntry block parent
            (parent.CumWorkInt + computeWork block.Target))
          (parent.CumWorkInt + computeWork block.Target) := by
  unfold connectMain
  rw [hbits]
  rw [hsync, hval]
  simp only [Bool.false_eq_true, if_false, Bool.not_true, ite_false, hnew,
    mapGet_mapPut_ne _ _ _ _ hneP, hpar, hchild]
  rfl

theorem connectBlock_of_main (env : CryptoEnv) (fuel : Nat) (n : Node)
    (block : Block) (parent : BlockIndex) (m : Node)
    (h : connectMain env n block parent = some (true, m))
    (ho : mapGet m.Orphans (hexEncode block.Hash) = none) :
    Node.connectBlock env (fuel + 2) n block parent = some (true, m) := by
  unfold Node.connectBlock
  show nodeRun env (fuel + 1 + 1) n (.connectB block parent) = _
  unfold nodeRun
  rw [h]
  dsimp only
  unfold nodeRun
  rw [ho]

/-- Claim C5: chain selection in connectBlock.  For a freshly indexed
full block whose parent is known, whose difficulty bits check out and
which passes validation: if the parent is the tip, the chain is extended
(the block appended to the main-chain array, its transactions applied to
the UTXO set, their ids removed from the mempool, the body and the best
pointer persisted); else if its cumulative work strictly exceeds the
tip's, a reorganization to the block is performed (the tip becomes the
block, the UTXO set is rebuilt by replaying the rebuilt chain, the best
pointer is persisted); otherwise only the side-chain index entry is
recorded and tip, chain, UTXO set and mempool are unchanged. -/
theorem C5_chain_selection (env : CryptoEnv) (fuel : Nat) (n : Node)
    (block : Block) (parent pe best : BlockIndex) (dbv : DB)
    (hbits : n.checkBits parent block = some true)
    (hsync : n.IsSyncing = false)
    (hval : VerifyBlockWithUTXO env block parent.Block n.UTXO n.DB
      = (true, dbv))
    (hnew : mapGet n.Blocks (hexEncode block.Hash) = none)
    (hpar : mapGet n.Blocks parent.Hash = some pe)
    (hchild : pe.Children.contains (hexEncode block.Hash) = false)
    (hbest : mapGet n.Blocks n.Best = some best)
    (hneP : parent.Hash ≠ hexEncode block.Hash)
    (hneB : n.Best ≠ hexEncode block.Hash)
    (horph : mapGet n.Orphans (hexEncode block.Hash) = none) :
    (parent.Hash = n.Best →
      (Node.connectBlock env (fuel + 2) n block parent).map Prod.fst
          = some true
      ∧ ∀ p, Node.connectBlock env (fuel + 2) n block parent = some p →
          p.2.Best = hexEncode block.Hash
          ∧ p.2.Chain = n.Chain ++ [block]
          ∧ p.2.UTXO
              = (block.Transactions.foldl (applyTxUTXO env)
                  (n.UTXO, n.DB)).1
          ∧ p.2.Mempool = mpRemoveConfirmed block.Transactions n.Mempool
          ∧ dbGet p.2.DB ("blocks") (hexEncode block.Hash)
              = some block.Serialize
          ∧ dbGet p.2.DB ("meta") ("best")
              = some (Bytes.str (hexEncode block.Hash)))
    ∧ (parent.Hash ≠ n.Best →
       parent.CumWorkInt + computeWork block.Target > best.CumWorkInt →
      (Node.connectBlock env (fuel + 2) n block parent).map Prod.fst
          = some true
      ∧ ∀ p, Node.connectBlock env (fuel + 2) n block parent = some p →
          p.2.Best = hexEncode block.Hash
          ∧ p.2.UTXO
              = (p.2.Chain.foldl
                  (fun acc b => b.Transactions.foldl (applyTxUTXO env) acc)
                  (NewUTXOSet, ([] : DB))).1
          ∧ dbGet p.2.DB ("meta") ("best")
              = some (Bytes.str (hexEncode block.Hash)))
    ∧ (parent.Hash ≠ n.Best →
       ¬parent.CumWorkInt + computeWork block.Target > best.CumWorkInt →
      (Node.connectBlock env (fuel + 2) n block parent).map Prod.fst
          = some true
      ∧ ∀ p, Node.connectBlock env (fuel + 2) n block parent = some p →
          p.2.Best = n.Best
          ∧ p.2.Chain = n.Chain
          ∧ p.2.UTXO = n.UTXO
          ∧ p.2.Mempool = n.Mempool
          ∧ (mapGet p.2.Blocks (hexEncode block.Hash)).map
              (fun e => e.Block) = some (some block)
          ∧ dbGet p.2.DB ("index") (hexEncode block.Hash)
              = some (Bytes.index
                  { hash := hexEncode block.Hash
                    height := parent.Height + 1
                    cumwork := intText16
                      (parent.CumWorkInt + computeWork block.Target)
                    prevhash := parent.Hash
                    timestamp := block.Timestamp
                    bits := block.Bits })) := by
  set HH := hexEncode block.Hash with hHH
  set CW := parent.CumWorkInt + computeWork block.Target with hCW
  set BIF := freshEntry block parent CW with hBIF
  set PEU : BlockIndex := { pe with Children := pe.Children ++ [HH] }
    with hPEU
  set BL2 := mapPut (mapPut n.Blocks HH BIF) parent.Hash PEU with hBL2
  set DB2 := dbPut (dbPut dbv ("blocks") HH block.Serialize) ("index") HH
    (Bytes.index
      { hash := HH
        height := parent.Height + 1
        cumwork := intText16 CW
        prevhash := parent.Hash
        timestamp := block.Timestamp
        bits := block.Bits }) with hDB2
  set N1 : Node := { n with Blocks := BL2, DB := DB2 } with hN1
  have hmain : connectMain env n block parent
      = connectSelect env N1 block parent BIF CW := by
    rw [hN1, hBL2, hDB2, hPEU, hBIF, hCW, hHH]
    exact connectMain_eq env n block parent pe dbv hbits hsync hval hnew
      hpar hchild hneP
  refine ⟨?_, ?_, ?_⟩
  · -- extend
    intro hext
    have hbl : mapGet N1.Blocks N1.Best = some PEU := by
      show mapGet BL2 n.Best = some PEU
      rw [← hext, hBL2]
      exact mapGet_mapPut_self _ _ _
    have hsel := connectSelect_extend env N1 block parent BIF PEU CW hbl
      hext
    have hfin := hmain.trans hsel
    have ho : mapGet
        ({ N1 with
           Best := BIF.Hash
           Chain := N1.Chain ++ [block]
           UTXO := (block.Transactions.foldl (applyTxUTXO env)
             (N1.UTXO, N1.DB)).1
           Mempool := mpRemoveConfirmed block.Transactions N1.Mempool
           DB := dbPut
             (dbRemoveConfirmed block.Transactions
               (block.Transactions.foldl (applyTxUTXO env)
                 (N1.UTXO, N1.DB)).2)
             ("meta") ("best") (Bytes.str BIF.Hash) } : Node).Orphans HH
        = none := by
      show mapGet n.Orphans HH = none
      exact horph
    have hcb := connectBlock_of_main env fuel n block parent _ hfin ho
    refine ⟨by rw [hcb]; rfl, ?_⟩
    intro p hp
    rw [hcb] at hp
    obtain rfl := (Option.some.inj hp).symm
    refine ⟨rfl, rfl, ?_, rfl, ?_, ?_⟩
    · show (block.Transactions.foldl (applyTxUTXO env) (n.UTXO, DB2)).1
        = (block.Transactions.foldl (applyTxUTXO env) (n.UTXO, n.DB)).1
      exact foldApply_fst_indep env block.Transactions n.UTXO DB2 n.DB
    · show dbGet
        (dbPut
          (dbRemoveConfirmed block.Transactions
            (block.Transactions.foldl (applyTxUTXO env) (n.UTXO, DB2)).2)
          ("meta") ("best") (Bytes.str BIF.Hash)) ("blocks") HH
        = some block.Serialize
      rw [dbGet_dbPut_ne _ _ _ _ _ _
          (by intro hc; injection hc with h1 h2; exact absurd h1 (by decide)),
        dbGet_dbRemoveConfirmed_ne _ _ _ _ (by decide),
        dbGet_foldApply_ne env _ _ _ _ _ (by decide), hDB2,
        dbGet_dbPut_ne _ _ _ _ _ _
          (by intro hc; injection hc with h1 h2; exact absurd h1 (by decide))]
      exact dbGet_dbPut_self _ _ _ _
    · show dbGet
        (dbPut
          (dbRemoveConfirmed block.Transactions
            (block.Transactions.foldl (applyTxUTXO env) (n.UTXO, DB2)).2)
          ("meta") ("best") (Bytes.str BIF.Hash)) ("meta") ("best")
        = some (Bytes.str HH)
      rw [dbGet_dbPut_self]
      rfl
  · -- reorganization
    intro hne hgt
    have hbl : mapGet N1.Blocks N1.Best = some best := by
      show mapGet BL2 n.Best = some best
      rw [hBL2, mapGet_mapPut_ne _ _ _ _ (Ne.symm hne),
        mapGet_mapPut_ne _ _ _ _ hneB]
      exact hbest
    have hsel := connectSelect_reorg env N1 block parent BIF best CW hbl
      hne hgt
    have hfin := hmain.trans hsel
    have hBest3 : ((N1.rebuildChain (N1.reorgTo best BIF).1
        (N1.reorgTo best BIF).2 BIF).RebuildUTXO env).Best = HH := by
      show (N1.rebuildChain (N1.reorgTo best BIF).1
        (N1.reorgTo best BIF).2 BIF).Best = HH
      rw [rebuildChain_Best]
      rfl
    have ho : mapGet
        ({ (N1.rebuildChain (N1.reorgTo best BIF).1
            (N1.reorgTo best BIF).2 BIF).RebuildUTXO env with
           DB := dbPut
             ((N1.rebuildChain (N1.reorgTo best BIF).1
               (N1.reorgTo best BIF).2 BIF).RebuildUTXO env).DB
             ("meta") ("best")
             (Bytes.str ((N1.rebuildChain (N1.reorgTo best BIF).1
               (N1.reorgTo best BIF).2 BIF).RebuildUTXO env).Best) } :
          Node).Orphans HH = none := by
      show mapGet (N1.rebuildChain (N1.reorgTo best BIF).1
        (N1.reorgTo best BIF).2 BIF).Orphans HH = none
      rw [rebuildChain_Orphans]
      exact horph
    have hcb := connectBlock_of_main env fuel n block parent _ hfin ho
    refine ⟨by rw [hcb]; rfl, ?_⟩
    intro p hp
    rw [hcb] at hp
    obtain rfl := (Option.some.inj hp).symm
    refine ⟨hBest3, ?_, ?_⟩
    · show ((N1.rebuildChain (N1.reorgTo best BIF).1
          (N1.reorgTo best BIF).2 BIF).Chain.foldl
          (fun acc b => b.Transactions.foldl (applyTxUTXO env) acc)
          (NewUTXOSet,
            dbClearBucket (N1.rebuildChain (N1.reorgTo best BIF).1
              (N1.reorgTo best BIF).2 BIF).DB ("utxo"))).1
        = _
      exact chainApply_fst_indep env _ _ _ _
    · show dbGet
        (dbPut
          ((N1.rebuildChain (N1.reorgTo best BIF).1
            (N1.reorgTo best BIF).2 BIF).RebuildUTXO env).DB
          ("meta") ("best")
          (Bytes.str ((N1.rebuildChain (N1.reorgTo best BIF).1
            (N1.reorgTo best BIF).2 BIF).RebuildUTXO env).Best))
        ("meta") ("best") = some (Bytes.str HH)
      rw [dbGet_dbPut_self, hBest3]
  · -- side chain
    intro hne hle
    have hbl : mapGet N1.Blocks N1.Best = some best := by
      show mapGet BL2 n.Best = some best
      rw [hBL2, mapGet_mapPut_ne _ _ _ _ (Ne.symm hne),
        mapGet_mapPut_ne _ _ _ _ hneB]
      exact hbest
    have hsel := connectSelect_side env N1 block parent BIF best CW hbl
      hne hle
    have hfin := hmain.trans hsel
    have ho : mapGet N1.Orphans HH = none := horph
    have hcb := connectBlock_of_main env fuel n block parent _ hfin ho
    refine ⟨by rw [hcb]; rfl, ?_⟩
    intro p hp
    rw [hcb] at hp
    obtain rfl := (Option.some.inj hp).symm
    refine ⟨rfl, rfl, rfl, rfl, ?_, ?_⟩
    · show (mapGet BL2 HH).map (fun e => e.Block) = some (some block)
      rw [hBL2, mapGet_mapPut_ne _ _ _ _ (Ne.symm hneP),
        mapGet_mapPut_self]
      rfl
    · show dbGet DB2 ("index") HH = _
      rw [hDB2]
      exact dbGet_dbPut_self _ _ _ _

/-- Genesis block for the C5 witness scenario. -/
def c5genesis : Block :=
  { Height := 0, PrevHash := List.replicate 32 0, Timestamp := 1700000000,
    Nonce := 0, Target := 2 ^ 256, MerkleRoot := [0], Transactions := [],
    Miner := "", Reward := 100, Hash := [1], Bits := 553713664 }

/-- Index entry for the C5 genesis (key "01"). -/
def c5genIdx : BlockIndex :=
  { Hash := "01", PrevHash := "", Height := 0, Timestamp := 1700000000,
    Bits := 553713664, CumWork := "1", CumWorkInt := 1,
    Block := some c5genesis, Children := [] }

/-- Coinbase of the valid C5 block. -/
def c5cb : Transaction :=
  { ID := "ee",
    Inputs := [{ TxID := "", Index := -1, Sig := "aa", PubKey := "bb" }],
    Outputs := [{ Amount := 100, To := "m" }], IsCoinbase := true }

/-- A valid coinbase-only block extending the C5 genesis (hash hex
"02", trivial proof of work). -/
def c5block : Block :=
  { Height := 1, PrevHash := [1], Timestamp := 1700000001, Nonce := 0,
    Target := 2 ^ 256, MerkleRoot := [0], Transactions := [c5cb],
    Miner := "", Reward := 100, Hash := [2], Bits := 553713664 }

/-- The C5 node: genesis tip, empty pool and store. -/
def c5node : Node :=
  { Chain := [c5genesis]
    Mempool := { Txs := [], Spent := [], Parents := [], Children := [],
                 MaxTx := 100 }
    UTXO := NewUTXOSet
    Blocks := [("01", c5genIdx)]
    Best := "01"
    Orphans := []
    Mode := "full"
    Target := 2 ^ 256
    Reward := 100
    IsSyncing := false
    DB := [] }

/-- The store returned by validating the C5 block: the sandbox's write of
the coinbase output. -/
def c5dbv : DB :=
  [(("utxo", "ee_0"),
    Bytes.utxo { TxID := "ee", Index := 0, Amount := 100, To := "m" })]

theorem C5_chain_selection_witness :
    (Node.connectBlock trivialEnv 2 c5node c5block c5genIdx).map
        (fun r => (r.1, r.2.Best, r.2.Chain))
      = some (true, "02", [c5genesis, c5block]) := by
  obtain ⟨h1, -, -⟩ := C5_chain_selection trivialEnv 0 c5node c5block
    c5genIdx c5genIdx c5genIdx c5dbv (by decide) rfl (by decide)
    (by decide) (by decide) (by decide) (by decide) (by decide)
    (by decide) (by decide)
  obtain ⟨ha, hb⟩ := h1 (by decide)
  cases hres : Node.connectBlock trivialEnv 2 c5node c5block c5genIdx with
  | none => rw [hres] at ha; exact absurd ha (by simp)
  | some p =>
    obtain ⟨b1, b2, -, -, -, -⟩ := hb p hres
    rw [hres] at ha
    have hfst : p.1 = true := by simpa using ha
    simp only [Option.map_some']
    rw [hfst, b1, b2]
    rfl

/-! ## Claim C6: the mempool after a reorganization -/

/-- Whether a transaction id appears in some block body of the given
branch. -/
def txInChainB (chain : List BlockIndex) (txid : String) : Bool :=
  chain.any fun bi =>
    match bi.Block with
    | some b => b.Transactions.any fun tx => tx.ID == txid
    | none => false

theorem mapGet_mapPut_isSome {κ α : Type} [DecidableEq κ]
    (m : List (κ × α)) (k txid : κ) (v : α) :
    (mapGet (mapPut m k v) txid).isSome
      = ((k == txid) || (mapGet m txid).isSome) := by
  by_cases h : txid = k
  · subst h
    simp [mapGet_mapPut_self]
  · rw [mapGet_mapPut_ne _ _ _ _ h]
    have h2 : (k == txid) = false := by
      simp only [beq_eq_false_iff_ne, ne_eq]
      exact fun he => h he.symm
    rw [h2, Bool.false_or]

theorem mapPut_pres_isSome {κ α : Type} [DecidableEq κ]
    (m : List (κ × α)) (k txid : κ) (v : α)
    (h : (mapGet m txid).isSome = true) :
    (mapGet (mapPut m k v) txid).isSome = true := by
  rw [mapGet_mapPut_isSome, h, Bool.or_true]

theorem foldl_pres_isSome {κ α β : Type} [DecidableEq κ]
    (f : List (κ × α) → β → List (κ × α)) (txid : κ)
    (h : ∀ acc x, (mapGet acc txid).isSome = true →
      (mapGet (f acc x) txid).isSome = true) :
    ∀ (l : List β) (acc : List (κ × α)),
      (mapGet acc txid).isSome = true →
      (mapGet (l.foldl f acc) txid).isSome = true
  | [], _, ha => ha
  | x :: rest, acc, ha => foldl_pres_isSome f txid h rest _ (h acc x ha)

theorem foldl_pres_none {κ α β : Type} [DecidableEq κ]
    (f : List (κ × α) → β → List (κ × α)) (txid : κ)
    (h : ∀ acc x, mapGet acc txid = none → mapGet (f acc x) txid = none) :
    ∀ (l : List β) (acc : List (κ × α)),
      mapGet acc txid = none →
      mapGet (l.foldl f acc) txid = none
  | [], _, ha => ha
  | x :: rest, acc, ha => foldl_pres_none f txid h rest _ (h acc x ha)

theorem putAll_isSome (txid : String) :
    ∀ (txs : List Transaction) (acc : List (String × Bool)),
      (mapGet (txs.foldl (fun a tx => mapPut a tx.ID true) acc) txid).isSome
        = ((txs.any fun tx => tx.ID == txid) || (mapGet acc txid).isSome)
  | [], acc => by simp
  | tx :: rest, acc => by
    simp only [List.foldl, List.any_cons]
    rw [putAll_isSome txid rest _, mapGet_mapPut_isSome]
    cases tx.ID == txid <;> simp

theorem confirmed_isSome (txid : String) :
    ∀ (cs : List BlockIndex) (acc : List (String × Bool)),
      (mapGet (cs.foldl
          (fun acc bi =>
            match bi.Block with
            | some b =>
              b.Transactions.foldl (fun a tx => mapPut a tx.ID true) acc
            | none => acc)
          acc) txid).isSome
        = (txInChainB cs txid || (mapGet acc txid).isSome)
  | [], acc => by simp [txInChainB]
  | bi :: rest, acc => by
    simp only [List.foldl, txInChainB, List.any_cons]
    rw [confirmed_isSome txid rest _]
    cases hb : bi.Block with
    | none => simp [txInChainB]
    | some b =>
      rw [putAll_isSome]
      simp only [txInChainB]
      cases b.Transactions.any fun tx => tx.ID == txid <;> simp

theorem mapGet_confirmedIds (newChain : List BlockIndex) (txid : String) :
    (mapGet (confirmedIds newChain) txid).isSome
      = txInChainB newChain txid := by
  unfold confirmedIds
  rw [confirmed_isSome]
  simp [mapGet]

/-- No transaction confirmed by the new branch survives into the
restored-transaction map. -/
theorem restoredTxs_none (oldc newc : List BlockIndex) (mp : Mempool)
    (txid : String) (hc : txInChainB newc txid = true) :
    mapGet (restoredTxs oldc newc mp) txid = none := by
  have hcS : (mapGet (confirmedIds newc) txid).isSome = true := by
    rw [mapGet_confirmedIds]; exact hc
  unfold restoredTxs
  have hstep : ∀ (acc : List (String × Bytes)) (tx : Transaction),
      mapGet acc txid = none →
      mapGet
        (if !tx.IsCoinbase && (mapGet (confirmedIds newc) tx.ID).isNone then
          mapPut acc tx.ID tx.Serialize
        else acc) txid = none := by
    intro acc tx ha
    by_cases hg : (!tx.IsCoinbase
        && (mapGet (confirmedIds newc) tx.ID).isNone) = true
    · rw [if_pos hg]
      have h2 : (mapGet (confirmedIds newc) tx.ID).isNone = true := by
        cases hB : (mapGet (confirmedIds newc) tx.ID).isNone
        · rw [hB, Bool.and_false] at hg
          exact absurd hg (by simp)
        · rfl
      have hne : txid ≠ tx.ID := by
        intro he
        rw [← he, Option.isNone_iff_eq_none] at h2
        rw [h2] at hcS
        exact absurd hcS (by simp)
      rw [mapGet_mapPut_ne _ _ _ _ hne]
      exact ha
    · rw [if_neg hg]
      exact ha
  refine foldl_pres_none _ txid ?_ mp.GetAll _
    (foldl_pres_none _ txid ?_ oldc [] rfl)
  · intro acc p ha
    by_cases hg : (mapGet (confirmedIds newc) p.1).isNone = true
    · rw [if_pos hg]
      have hne : txid ≠ p.1 := by
        intro he
        rw [← he, Option.isNone_iff_eq_none] at hg
        rw [hg] at hcS
        exact absurd hcS (by simp)
      rw [mapGet_mapPut_ne _ _ _ _ hne]
      exact ha
    · rw [if_neg hg]
      exact ha
  · intro acc bi ha
    cases hb : bi.Block with
    | none => exact ha
    | some b => exact foldl_pres_none _ txid hstep b.Transactions acc ha

/-- Every old-branch non-coinbase transaction the new branch did not
confirm appears in the restored-transaction map. -/
theorem restoredTxs_isSome (oldc newc : List BlockIndex) (mp : Mempool)
    (bi : BlockIndex) (hbi : bi ∈ oldc) (b : Block)
    (hb : bi.Block = some b) (tx : Transaction)
    (htx : tx ∈ b.Transactions) (hcb : tx.IsCoinbase = false)
    (hn : txInChainB newc tx.ID = false) :
    (mapGet (restoredTxs oldc newc mp) tx.ID).isSome = true := by
  have hg : (!tx.IsCoinbase
      && (mapGet (confirmedIds newc) tx.ID).isNone) = true := by
    rw [hcb]
    have h2 : (mapGet (confirmedIds newc) tx.ID).isNone = true := by
      rw [Bool.eq_iff_iff, Option.isNone_iff_eq_none,
        ← Option.not_isSome_iff_eq_none, mapGet_confirmedIds, hn]
      simp
    rw [h2]
    rfl
  have hpres : ∀ (acc : List (String × Bytes)) (t : Transaction),
      (mapGet acc tx.ID).isSome = true →
      (mapGet
        (if !t.IsCoinbase && (mapGet (confirmedIds newc) t.ID).isNone then
          mapPut acc t.ID t.Serialize
        else acc) tx.ID).isSome = true := by
    intro acc t ha
    by_cases hgg : (!t.IsCoinbase
        && (mapGet (confirmedIds newc) t.ID).isNone) = true
    · rw [if_pos hgg]
      exact mapPut_pres_isSome _ _ _ _ ha
    · rw [if_neg hgg]
      exact ha
  have hinner : ∀ (txs : List Transaction) (acc : List (String × Bytes)),
      tx ∈ txs →
      (mapGet (txs.foldl
        (fun a t =>
          if !t.IsCoinbase && (mapGet (confirmedIds newc) t.ID).isNone then
            mapPut a t.ID t.Serialize
          else a) acc) tx.ID).isSome = true := by
    intro txs
    induction txs with
    | nil => intro acc hmem; exact absurd hmem (List.not_mem_nil tx)
    | cons t rest ih =>
      intro acc hmem
      rcases List.mem_cons.mp hmem with he | hmem2
      · subst he
        simp only [List.foldl]
        refine foldl_pres_isSome _ tx.ID hpres rest _ ?_
        rw [if_pos hg, mapGet_mapPut_self]
        rfl
      · exact ih _ hmem2
  have hblockpres : ∀ (acc : List (String × Bytes)) (e : BlockIndex),
      (mapGet acc tx.ID).isSome = true →
      (mapGet
        (match e.Block with
         | some bb =>
           bb.Transactions.foldl
             (fun a t =>
               if !t.IsCoinbase
                   && (mapGet (confirmedIds newc) t.ID).isNone then
                 mapPut a t.ID t.Serialize
               else a) acc
         | none => acc) tx.ID).isSome = true := by
    intro acc e ha
    cases e.Block with
    | none => exact ha
    | some bb => exact foldl_pres_isSome _ tx.ID hpres bb.Transactions acc ha
  have hrestore0 : ∀ (cs : List BlockIndex) (acc : List (String × Bytes)),
      bi ∈ cs →
      (mapGet (cs.foldl
        (fun acc e =>
          match e.Block with
          | some bb =>
            bb.Transactions.foldl
              (fun a t =>
                if !t.IsCoinbase
                    && (mapGet (confirmedIds newc) t.ID).isNone then
                  mapPut a t.ID t.Serialize
                else a) acc
          | none => acc) acc) tx.ID).isSome = true := by
    intro cs
    induction cs with
    | nil => intro acc hmem; exact absurd hmem (List.not_mem_nil bi)
    | cons e rest ih =>
      intro acc hmem
      rcases List.mem_cons.mp hmem with he | hmem2
      · subst he
        simp only [List.foldl]
        refine foldl_pres_isSome _ tx.ID hblockpres rest _ ?_
        rw [hb]
        exact hinner b.Transactions acc htx
      · exact ih _ hmem2
  unfold restoredTxs
  refine foldl_pres_isSome _ tx.ID ?_ mp.GetAll _ (hrestore0 oldc [] hbi)
  intro acc p ha
  by_cases hgg : (mapGet (confirmedIds newc) p.1).isNone = true
  · rw [if_pos hgg]
    exact mapPut_pres_isSome _ _ _ _ ha
  · rw [if_neg hgg]
    exact ha

/-- C6: after rebuildChain rebuilds the mempool during a reorganization,
every transaction confirmed by a connected (new-branch) block body is
absent from the pool, and every non-coinbase transaction of a
disconnected (old-branch) block body that no connected block confirms is
present in the pool again. -/
theorem C6_reorg_mempool (n : Node) (oldChain newChain : List BlockIndex)
    (newTip : BlockIndex) :
    (∀ txid, txInChainB newChain txid = true →
      mapGet
        ((n.rebuildChain oldChain newChain newTip).Mempool).Txs txid
        = none)
    ∧ (∀ bi, bi ∈ oldChain → ∀ b, bi.Block = some b →
        ∀ tx, tx ∈ b.Transactions → tx.IsCoinbase = false →
          txInChainB newChain tx.ID = false →
          (mapGet
            ((n.rebuildChain oldChain newChain newTip).Mempool).Txs
            tx.ID).isSome = true) := by
  have hm := rebuildChain_Mempool n oldChain newChain newTip
  constructor
  · intro txid hc
    rw [hm]
    exact restoredTxs_none oldChain newChain n.Mempool txid hc
  · intro bi hbi b hb tx htx hcb hn
    rw [hm]
    exact restoredTxs_isSome oldChain newChain n.Mempool bi hbi b hb tx
      htx hcb hn

/-- A non-coinbase transaction confirmed only by the C6 old branch. -/
def c6txOld : Transaction :=
  { ID := "aa",
    Inputs := [{ TxID := "qq", Index := 0, Sig := "00", PubKey := "00" }],
    Outputs := [{ Amount := 5, To := "x" }], IsCoinbase := false }

/-- Coinbase of the C6 old-branch block. -/
def c6cbOld : Transaction :=
  { ID := "c1",
    Inputs := [{ TxID := "", Index := -1, Sig := "g", PubKey := "Coinbase" }],
    Outputs := [{ Amount := 100, To := "m" }], IsCoinbase := true }

/-- The disconnected old-branch block. -/
def c6blockOld : Block :=
  { Height := 1, PrevHash := [1], Timestamp := 1700000001, Nonce := 0,
    Target := 2 ^ 256, MerkleRoot := [0],
    Transactions := [c6cbOld, c6txOld],
    Miner := "", Reward := 100, Hash := [2], Bits := 553713664 }

/-- Index entry of the old-branch block. -/
def c6biOld : BlockIndex :=
  { Hash := "02", PrevHash := "01", Height := 1, Timestamp := 1700000001,
    Bits := 553713664, CumWork := "2", CumWorkInt := 2,
    Block := some c6blockOld, Children := [] }

/-- A transaction confirmed by the C6 new branch. -/
def c6txNew : Transaction :=
  { ID := "bb",
    Inputs := [{ TxID := "rr", Index := 0, Sig := "00", PubKey := "00" }],
    Outputs := [{ Amount := 7, To := "y" }], IsCoinbase := false }

/-- Coinbase of the C6 new-branch block. -/
def c6cbNew : Transaction :=
  { ID := "c2",
    Inputs := [{ TxID := "", Index := -1, Sig := "h", PubKey := "Coinbase" }],
    Outputs := [{ Amount := 100, To := "m" }], IsCoinbase := true }

/-- The connected new-branch block. -/
def c6blockNew : Block :=
  { Height := 1, PrevHash := [1], Timestamp := 1700000002, Nonce := 0,
    Target := 2 ^ 256, MerkleRoot := [0],
    Transactions := [c6cbNew, c6txNew],
    Miner := "", Reward := 100, Hash := [3], Bits := 553713664 }

/-- Index entry of the new-branch block (the new tip). -/
def c6biNew : BlockIndex :=
  { Hash := "03", PrevHash := "01", Height := 1, Timestamp := 1700000002,
    Bits := 553713664, CumWork := "3", CumWorkInt := 3,
    Block := some c6blockNew, Children := [] }

/-- The node whose mempool (holding the new-branch transaction) the C6
witness reorganization rebuilds. -/
def c6node : Node :=
  { Chain := [c6blockOld]
    Mempool := { Txs := [("bb", Bytes.tx c6txNew)],
                 Spent := [("rr_0", "bb")], Parents := [], Children := [],
                 MaxTx := 100 }
    UTXO := NewUTXOSet
    Blocks := [("02", c6biOld), ("03", c6biNew)]
    Best := "02"
    Orphans := []
    Mode := "full"
    Target := 2 ^ 256
    Reward := 100
    IsSyncing := false
    DB := [] }

theorem C6_reorg_mempool_witness :
    mapGet
        ((c6node.rebuildChain [c6biOld] [c6biNew] c6biNew).Mempool).Txs
        ("bb") = none
    ∧ (mapGet
        ((c6node.rebuildChain [c6biOld] [c6biNew] c6biNew).Mempool).Txs
        ("aa")).isSome = true := by
  obtain ⟨h1, h2⟩ := C6_reorg_mempool c6node [c6biOld] [c6biNew] c6biNew
  exact ⟨h1 ("bb") (by decide),
    h2 c6biOld (by decide) c6blockOld rfl c6txOld (by decide) rfl
      (by decide)⟩

/-! ## Inventory relay (mycoin/network/handle.go, peer.go)

The network side is modelled by the data it moves: a peer is its address
and connection state (peer.go lines 11-38; PeerState is an int with
StateActive = 3), the registry iteration order is the peer list's order,
and a broadcast is the list of (peer, message) sends it performs. -/

/-- network.StateActive (peer.go lines 13-18). -/
def StateActive : Nat := 3

/-- node.SyncSynced (node sync states, SyncState int, iota order
Idle/IBD/Headers/Bodies/Synced). -/
def SyncSynced : Nat := 4

/-- The relay-relevant part of network.Peer (peer.go lines 27-38). -/
structure Peer where
  Addr : String
  State : Nat
  deriving DecidableEq, Repr

/-- An inv message as sent by the broadcast helpers: Go Message with Type
MsgInv and an InvPayload data (the Go payload field named Type is written
invType here).  -/
structure InvMsg where
  invType : String
  Hashes : List String
  deriving DecidableEq, Repr

/-- Handler.broadcastInv (handle.go lines 378-393): send a block inv to
every active peer.  No peer is excluded. -/
def broadcastInv (peers : List Peer) (hash : String) :
    List (Peer × InvMsg) :=
  peers.foldl
    (fun acc p =>
      if p.State = StateActive then
        acc ++ [(p, { invType := "block", Hashes := [hash] })]
      else acc)
    []

/-- Handler.broadcastTxInv (handle.go lines 491-510): do nothing unless
headers-first synchronization has finished, else send a tx inv to every
active peer.  No peer is excluded. -/
def broadcastTxInv (syncState : Nat) (peers : List Peer) (txid : String) :
    List (Peer × InvMsg) :=
  if syncState ≠ SyncSynced then []
  else
    peers.foldl
      (fun acc p =>
        if p.State = StateActive then
          acc ++ [(p, { invType := "tx", Hashes := [txid] })]
        else acc)
      []

/-- Handler.handleTx (handle.go lines 462-489): hash the payload, drop
residents, admit through AddTxRBF, and relay the txid on admission.  The
originating peer is accepted but never consulted by the relay. -/
def handleTx (mp : Mempool) (db : DB) (u : UTXOSet) (syncState : Nat)
    (peers : List Peer) (_peer : Peer) (txBytes : Bytes) :
    Option (Mempool × DB × List (Peer × InvMsg)) :=
  let txid := HashTxBytes txBytes
  if mp.Has txid then some (mp, db, [])
  else
    match mp.AddTxRBF db txid txBytes u with
    | none => none
    | some (ok, mp1, db1) =>
      if !ok then some (mp1, db1, [])
      else some (mp1, db1, broadcastTxInv syncState peers txid)

theorem broadcastLoop_sends (v : InvMsg) :
    ∀ (peers : List Peer) (acc : List (Peer × InvMsg)),
      peers.foldl
        (fun acc p =>
          if p.State = StateActive then acc ++ [(p, v)] else acc) acc
      = acc ++ (peers.filter fun p => p.State == StateActive).map
          (fun p => (p, v))
  | [], acc => by simp
  | p :: rest, acc => by
    simp only [List.foldl, List.filter_cons]
    by_cases h : p.State = StateActive
    · rw [if_pos h, broadcastLoop_sends v rest _]
      have hb : (p.State == StateActive) = true := by simp [h]
      rw [hb]
      simp
    · rw [if_neg h, broadcastLoop_sends v rest _]
      have hb : (p.State == StateActive) = false := by simp [h]
      rw [hb]
      simp

/-- C9 (amended): the inventory relay sends to every active peer with no
originator exclusion — broadcastInv sends the block inv to exactly the
active peers of the registry, and broadcastTxInv sends the tx inv to
exactly the active peers when headers-first synchronization has finished
(SyncState = SyncSynced) and sends nothing otherwise. -/
theorem C9_inv_all_active (peers : List Peer) (hash txid : String)
    (syncState : Nat) :
    broadcastInv peers hash
      = (peers.filter fun p => p.State == StateActive).map
          (fun p => (p, { invType := "block", Hashes := [hash] }))
    ∧ broadcastTxInv syncState peers txid
      = (if syncState = SyncSynced then
          (peers.filter fun p => p.State == StateActive).map
            (fun p => (p, { invType := "tx", Hashes := [txid] }))
        else []) := by
  constructor
  · unfold broadcastInv
    rw [broadcastLoop_sends]
    simp
  · unfold broadcastTxInv
    by_cases h : syncState = SyncSynced
    · rw [if_neg (by simp [h]), if_pos h, broadcastLoop_sends]
      simp
    · rw [if_pos h, if_neg h]

/-- The peer the C9 transaction arrives from. -/
def c9orig : Peer := { Addr := "origin", State := 3 }

/-- A second active peer. -/
def c9other : Peer := { Addr := "other", State := 3 }

/-- The admitted transaction of the C9 counterexample. -/
def c9tx : Transaction :=
  { ID := "",
    Inputs := [{ TxID := "ss", Index := 0, Sig := "00", PubKey := "00" }],
    Outputs := [{ Amount := 3, To := "z" }], IsCoinbase := false }

/-- An empty mempool with room for the C9 transaction. -/
def c9mp : Mempool :=
  { Txs := [], Spent := [], Parents := [], Children := [], MaxTx := 10 }

/-- C9: handleTx admits a fresh transaction received from the active peer
"origin" and relays the inv to every active peer — including "origin"
itself; broadcastInv likewise sends to all active peers.  The claimed
originator exclusion does not exist (broadcastInvExcept is defined at
handle.go lines 357-372 but neither handleBlock nor handleTx calls it). -/
theorem C9_counterexample :
    (handleTx c9mp [] NewUTXOSet SyncSynced [c9orig, c9other] c9orig
        (Bytes.tx c9tx)).map
        (fun r => r.2.2.map fun s => s.1.Addr)
      = some ["origin", "other"]
    ∧ (broadcastInv [c9orig, c9other] ("hh")).map (fun s => s.1.Addr)
      = ["origin", "other"] := by
  refine ⟨by decide, by decide⟩
